import Mathlib

/-!
Shallow embedding of the ORTC session-description utilities
(`modules/RTC/ortc/utils.js`): extraction of RTP capabilities, DTLS and
ICE parameters, per-source track information, and negotiation of local
RTP capabilities against a remote peer's capabilities.

Modelling conventions:
* JavaScript `Map` objects become association lists with JS `Map.set`
  semantics (replace in place at an existing key, append otherwise;
  iteration in insertion order).
* JavaScript objects holding free-form codec parameters become ordered
  association lists from `String` to `PVal` (a number-or-string value,
  as produced by the external `sdp-transform` parser).
* Absent JavaScript values (`undefined`) become `Option.none`; a thrown
  `TypeError` (dereferencing `undefined`) makes the embedded function
  return `none`.
-/

namespace Ortc

/-- Value of a parsed format parameter: the external parser yields either
a number or a string. -/
inductive PVal where
  | num (n : Int)
  | str (s : String)
deriving DecidableEq, Repr

/-- JS `x || d` on an optional number (`0` and `undefined` are falsy). -/
def jsOrInt (o : Option Int) (d : Int) : Int :=
  match o with
  | none => d
  | some n => if n = 0 then d else n

/-- JS `a || b` on two optional values. -/
def jsOrO {α : Type} (a b : Option α) : Option α :=
  match a with
  | some x => some x
  | none => b

/-- JS `String.prototype.toLowerCase`, modelled character-wise. -/
def jsToLower (s : String) : String :=
  ⟨s.data.map Char.toLower⟩

/-- Splitting of a character list at a separator character. -/
def splitCharsAux (sep : Char) : List Char → List Char → List (List Char)
  | [], cur => [cur.reverse]
  | c :: rest, cur =>
    if c = sep then cur.reverse :: splitCharsAux sep rest []
    else splitCharsAux sep rest (c :: cur)

/-- JS `String.prototype.split` with a one-character separator. -/
def jsSplit (s : String) (sep : Char) : List String :=
  (splitCharsAux sep s.data []).map (fun l => ⟨l⟩)

/-- Value of a decimal digit character. -/
def digitVal (c : Char) : Option Nat :=
  if 48 ≤ c.toNat ∧ c.toNat ≤ 57 then some (c.toNat - 48) else none

/-- Accumulating decimal parse of a character list. -/
def natDigitsAux : List Char → Nat → Option Nat
  | [], acc => some acc
  | c :: t, acc =>
    match digitVal c with
    | some d => natDigitsAux t (acc * 10 + d)
    | none => none

/-- JS `Number(s)` restricted to the decimal integer strings the claims
need; the empty string is `0` (as in JS), non-numeric input collapses to
`0` (JS would give `NaN`, which no claim distinguishes). -/
def jsNum (s : String) : Int :=
  match s.data with
  | [] => 0
  | '-' :: t =>
    (match natDigitsAux t 0 with
     | some n => -(n : Int)
     | none => 0)
  | l =>
    (match natDigitsAux l 0 with
     | some n => (n : Int)
     | none => 0)

/-- Lookup in a JS `Map` (or object) modelled as an association list. -/
def mapGet {α β : Type} [DecidableEq α] : List (α × β) → α → Option β
  | [], _ => none
  | p :: t, k => if p.1 = k then some p.2 else mapGet t k

/-- JS `Map.set`: replace the value at an existing key in place (keeping
the key's insertion position), otherwise append the binding at the end. -/
def mapSet {α β : Type} [DecidableEq α] : List (α × β) → α → β → List (α × β)
  | [], k, v => [(k, v)]
  | p :: t, k, v => if p.1 = k then (k, v) :: t else p :: mapSet t k v

/-! ## Document model (output of the external `sdp-transform` parser) -/

/-- One `a=rtpmap` entry of a media section (`m.rtp[i]`). -/
structure RtpEntry where
  payload : Int
  codec : String
  rate : Int
  encoding : Option Int := none
deriving DecidableEq, Repr

/-- One `a=fmtp` entry (`m.fmtp[i]`); its `config` is modelled already
parsed by `sdpTransform.parseFmtpConfig`. -/
structure FmtpEntry where
  payload : Int
  config : List (String × PVal)
deriving DecidableEq, Repr

/-- One `a=rtcp-fb` entry (`m.rtcpFb[i]`). -/
structure RtcpFbEntry where
  payload : Int
  type : String
  subtype : Option String := none
deriving DecidableEq, Repr

/-- One `a=extmap` entry (`m.ext[i]`). -/
structure ExtEntry where
  value : Int
  uri : String
deriving DecidableEq, Repr

/-- A certificate fingerprint as parsed from the document. -/
structure FingerprintEntry where
  type : String
  hash : String
deriving DecidableEq, Repr

/-- One ICE candidate entry of a media section (`m.candidates[i]`). -/
structure CandidateEntry where
  foundation : String
  component : Int
  transport : String
  priority : Int
  ip : String
  port : Int
  type : String
deriving DecidableEq, Repr

/-- One `a=ssrc-group` entry (`m.ssrcGroups[i]`); `ssrcs` is the raw
space-separated string, as handed over by the parser. -/
structure SsrcGroupEntry where
  semantics : String
  ssrcs : String
deriving DecidableEq, Repr

/-- One per-source `a=ssrc` attribute line (`m.ssrcs[i]`). -/
structure SsrcEntry where
  id : Int
  «attribute» : String
  value : String
deriving DecidableEq, Repr

/-- A parsed media section. A missing `iceUfrag` and an empty one are
both JS-falsy and are merged into `""`. -/
structure MediaSection where
  type : String
  port : Int := 0
  rtp : List RtpEntry := []
  fmtp : List FmtpEntry := []
  rtcpFb : List RtcpFbEntry := []
  ext : List ExtEntry := []
  setup : Option String := none
  fingerprint : Option FingerprintEntry := none
  iceUfrag : String := ""
  icePwd : String := ""
  candidates : List CandidateEntry := []
  ssrcGroups : List SsrcGroupEntry := []
  ssrcs : List SsrcEntry := []
  mid : String := ""
deriving DecidableEq, Repr

/-- A parsed session-description document. -/
structure SdpObject where
  media : List MediaSection := []
  fingerprint : Option FingerprintEntry := none
  icelite : Option String := none
deriving DecidableEq, Repr

/-! ## Capability and parameter records -/

/-- One RTCP feedback entry of a codec capability. -/
structure RtcpFeedback where
  type : String
  parameter : String
deriving DecidableEq, Repr

/-- A codec capability. `numChannels` is optional because the synthesized
RTX codec entries of the negotiator carry no such field. -/
structure CodecCapability where
  clockRate : Int
  kind : String
  mimeType : String
  name : String
  numChannels : Option Int := none
  parameters : List (String × PVal) := []
  preferredPayloadType : Int
  rtcpFeedback : List RtcpFeedback := []
deriving DecidableEq, Repr

/-- A header-extension capability; `preferredEncrypt` is only produced by
the negotiator, extraction leaves it absent. -/
structure HeaderExtension where
  kind : String
  uri : String
  preferredId : Int
  preferredEncrypt : Option Bool := none
deriving DecidableEq, Repr

/-- An RTP capability record. -/
structure RtpCapabilities where
  codecs : List CodecCapability := []
  fecMechanisms : List String := []
  headerExtensions : List HeaderExtension := []
deriving DecidableEq, Repr

/-- One fingerprint of a DTLS parameter record. -/
structure DtlsFingerprint where
  algorithm : String
  value : String
deriving DecidableEq, Repr

/-- A DTLS parameter record; `role` is `none` when the document's setup
value is unrecognized or missing (the JS code leaves it `undefined`). -/
structure DtlsParameters where
  role : Option String
  fingerprints : List DtlsFingerprint
deriving DecidableEq, Repr

/-- An ICE parameter record. -/
structure IceParameters where
  icelite : Bool
  password : String
  usernameFragment : String
deriving DecidableEq, Repr

/-- One extracted ICE candidate. -/
structure IceCandidate where
  foundation : String
  ip : String
  port : Int
  priority : Int
  protocol : String
  type : String
deriving DecidableEq, Repr

/-- Information about one received track, keyed by its primary SSRC. -/
structure TrackInfo where
  kind : String
  rtxSsrc : Option Int := none
  ssrc : Int
  streamId : Option String := none
  trackId : Option String := none
  cname : Option String := none
deriving DecidableEq, Repr

/-! ## Capability extraction (`extractCapabilities`) -/

/-- Media kinds the extractor considers (`kind !== 'audio' && kind !== 'video'`
sections are skipped). -/
def isAV (m : MediaSection) : Bool :=
  decide (m.type = "audio" ∨ m.type = "video")

/-- The codec registered for one `a=rtpmap` entry. -/
def mkCodec (kind : String) (r : RtpEntry) : CodecCapability :=
  { clockRate := r.rate
  , kind := kind
  , mimeType := kind ++ "/" ++ r.codec
  , name := r.codec
  , numChannels := some (jsOrInt r.encoding 1)
  , parameters := []
  , preferredPayloadType := r.payload
  , rtcpFeedback := [] }

/-- The feedback entry built from one `a=rtcp-fb` line
(`{parameter: fb.subtype || '', type: fb.type}`). -/
def mkFeedback (b : RtcpFbEntry) : RtcpFeedback :=
  { type := b.type, parameter := (b.subtype.getD "") }

/-- State threaded through `extractCapabilities`: the codec registry keyed
by payload type and the collected header extensions. -/
structure CapState where
  codecsMap : List (Int × CodecCapability)
  headerExtensions : List HeaderExtension
deriving DecidableEq, Repr

/-- Appending a header extension unless one with the same `(kind, uri)`
is already present (first occurrence wins). -/
def extDedupStep (hes : List HeaderExtension) (he : HeaderExtension) : List HeaderExtension :=
  if hes.any (fun saved => decide (he.kind = saved.kind ∧ he.uri = saved.uri)) then hes
  else hes ++ [he]

/-- Processing of one media section by `extractCapabilities`. -/
def capSection (st : CapState) (m : MediaSection) : CapState :=
  if isAV m then
    let cm1 := m.rtp.foldl (fun cm r => mapSet cm r.payload (mkCodec m.type r)) st.codecsMap
    let cm2 := m.fmtp.foldl (fun cm f =>
      match mapGet cm f.payload with
      | none => cm
      | some c => mapSet cm f.payload { c with parameters := f.config }) cm1
    let cm3 := m.rtcpFb.foldl (fun cm b =>
      match mapGet cm b.payload with
      | none => cm
      | some c => mapSet cm b.payload
          { c with rtcpFeedback := c.rtcpFeedback ++ [mkFeedback b] }) cm2
    let hes := m.ext.foldl (fun hes e =>
      extDedupStep hes { kind := m.type, uri := e.uri, preferredId := e.value }) st.headerExtensions
    { codecsMap := cm3, headerExtensions := hes }
  else st

/-- `extractCapabilities(sdpObject)`. -/
def extractCapabilities (sdpObject : SdpObject) : RtpCapabilities :=
  let st := sdpObject.media.foldl capSection { codecsMap := [], headerExtensions := [] }
  { codecs := st.codecsMap.map (·.2)
  , fecMechanisms := []
  , headerExtensions := st.headerExtensions }

/-! ## DTLS / ICE extraction -/

/-- `getFirstActiveMediaSection`: first media section with a truthy ICE
user fragment and a nonzero port. -/
def getFirstActiveMediaSection (sdpObject : SdpObject) : Option MediaSection :=
  sdpObject.media.find? (fun m => decide (m.iceUfrag ≠ "" ∧ m.port ≠ 0))

/-- The `switch (media.setup)` of `extractDtlsParameters`; the JS switch
has no default case, so `role` stays `undefined` on any other value. -/
def setupRole (s : Option String) : Option String :=
  if s = some "active" then some "client"
  else if s = some "passive" then some "server"
  else if s = some "actpass" then some "auto"
  else none

/-- `extractDtlsParameters(sdpObject)`; `none` models a thrown `TypeError`
(no active media section, or no fingerprint at either level). -/
def extractDtlsParameters (sdpObject : SdpObject) : Option DtlsParameters :=
  match getFirstActiveMediaSection sdpObject with
  | none => none
  | some media =>
    match jsOrO media.fingerprint sdpObject.fingerprint with
    | none => none
    | some fingerprint =>
      some { role := setupRole media.setup
           , fingerprints := [{ algorithm := fingerprint.type, value := fingerprint.hash }] }

/-- `extractIceCandidates(sdpObject)`: only component-1 candidates of the
active section are kept, with a lower-cased transport protocol. -/
def extractIceCandidates (sdpObject : SdpObject) : Option (List IceCandidate) :=
  match getFirstActiveMediaSection sdpObject with
  | none => none
  | some media =>
    some (media.candidates.foldl (fun acc c =>
      if c.component = 1 then
        acc ++ [{ foundation := c.foundation
                , ip := c.ip
                , port := c.port
                , priority := c.priority
                , protocol := jsToLower c.transport
                , type := c.type }]
      else acc) [])

/-- `extractIceParameters(sdpObject)`. -/
def extractIceParameters (sdpObject : SdpObject) : Option IceParameters :=
  match getFirstActiveMediaSection sdpObject with
  | none => none
  | some media =>
    some { icelite := decide (sdpObject.icelite = some "ice-lite")
         , password := media.icePwd
         , usernameFragment := media.iceUfrag }

/-! ## Track information extraction (`extractTrackInfos`) -/

/-- The parsed SSRC list of a source group (`ssrcs.split(' ').map(Number)`). -/
def groupSsrcList (g : SsrcGroupEntry) : List Int :=
  (jsSplit g.ssrcs ' ').map jsNum

/-- The primary SSRC of a source group (`ssrcs[0]`). -/
def groupPrimarySsrc (g : SsrcGroupEntry) : Int :=
  (groupSsrcList g).headD 0

/-- The retransmission SSRC of a source group (`ssrcs[1]`, possibly absent). -/
def groupRtxSsrc (g : SsrcGroupEntry) : Option Int :=
  (groupSsrcList g)[1]?

/-- State threaded through `extractTrackInfos`. -/
structure TrackState where
  infos : List (Int × TrackInfo)
  rtxMap : List (Int × Option Int)
  rtxSet : List (Option Int)
deriving DecidableEq, Repr

/-- Pass over one `a=ssrc-group` entry: record the FID pairing and mark
the retransmission SSRC. -/
def trackGroupStep (st : TrackState) (g : SsrcGroupEntry) : TrackState :=
  if g.semantics = "FID" then
    { st with
      rtxMap := mapSet st.rtxMap (groupPrimarySsrc g) (groupRtxSsrc g)
      rtxSet := if groupRtxSsrc g ∈ st.rtxSet then st.rtxSet else st.rtxSet ++ [groupRtxSsrc g] }
  else st

/-- The `switch (ssrcObject.attribute)` updating one track info. -/
def applyAttr (info : TrackInfo) (a : SsrcEntry) : TrackInfo :=
  match a.«attribute» with
  | "cname" => { info with cname := some a.value }
  | "msid" =>
    let values := jsSplit a.value ' ' 
    { info with streamId := some (values.headD ""), trackId := values[1]? }
  | "mslabel" => { info with streamId := some a.value }
  | "label" => { info with trackId := some a.value }
  | _ => info

/-- Pass over one `a=ssrc` attribute line: skip retransmission SSRCs,
lazily create the info, then apply the attribute. -/
def trackSsrcStep (kind : String) (st : TrackState) (a : SsrcEntry) : TrackState :=
  if some a.id ∈ st.rtxSet then st
  else
    match mapGet st.infos a.id with
    | some info => { st with infos := mapSet st.infos a.id (applyAttr info a) }
    | none =>
      let info : TrackInfo :=
        { kind := kind, rtxSsrc := (mapGet st.rtxMap a.id).join, ssrc := a.id }
      { st with infos := mapSet st.infos a.id (applyAttr info a) }

/-- Processing of one media section by `extractTrackInfos`: groups first,
then the per-source attribute lines. -/
def trackSection (st : TrackState) (m : MediaSection) : TrackState :=
  if isAV m then
    let st1 := m.ssrcGroups.foldl trackGroupStep st
    m.ssrcs.foldl (trackSsrcStep m.type) st1
  else st

/-- `extractTrackInfos(sdpObject)`: the resulting map from primary SSRC to
track info, in insertion order. -/
def extractTrackInfos (sdpObject : SdpObject) : List (Int × TrackInfo) :=
  (sdpObject.media.foldl trackSection { infos := [], rtxMap := [], rtxSet := [] }).infos

/-! ## Capability negotiation (`getLocalCapabilities`) -/

/-- Case-insensitive test for the RTX codec name. -/
def isRtxName (s : String) : Bool :=
  decide (jsToLower s = "rtx")

/-- The matching condition for a local codec against a remote one:
case-insensitive name, kind, and clock rate. -/
def codecMatches (remoteCodec localCodec : CodecCapability) : Bool :=
  decide (jsToLower localCodec.name = jsToLower remoteCodec.name
    ∧ localCodec.kind = remoteCodec.kind
    ∧ localCodec.clockRate = remoteCodec.clockRate)

/-- Parameter intersection: a remote parameter is copied when the local
codec carries the same name with an identical value. -/
def negotiateParams (localPs remotePs : List (String × PVal)) : List (String × PVal) :=
  remotePs.foldl (fun acc rp =>
    if localPs.any (fun lp => decide (lp.1 = rp.1 ∧ lp.2 = rp.2)) then mapSet acc rp.1 rp.2
    else acc) []

/-- Feedback intersection: for each remote feedback entry, the first local
entry with the same type and parameter is kept, in remote iteration order. -/
def negotiateFeedback (localFbs remoteFbs : List RtcpFeedback) : List RtcpFeedback :=
  remoteFbs.foldl (fun acc rfb =>
    match localFbs.find? (fun lfb => decide (lfb.type = rfb.type ∧ lfb.parameter = rfb.parameter)) with
    | some lfb => acc ++ [lfb]
    | none => acc) []

/-- The negotiated codec built on a match: local clock rate, kind, name and
channel count, but the remote's preferred payload type. -/
def negotiateCodec (localCodec remoteCodec : CodecCapability) : CodecCapability :=
  { clockRate := localCodec.clockRate
  , kind := localCodec.kind
  , mimeType := localCodec.kind ++ "/" ++ localCodec.name
  , name := localCodec.name
  , numChannels := some (jsOrInt localCodec.numChannels 1)
  , parameters := negotiateParams localCodec.parameters remoteCodec.parameters
  , preferredPayloadType := remoteCodec.preferredPayloadType
  , rtcpFeedback := negotiateFeedback localCodec.rtcpFeedback remoteCodec.rtcpFeedback }

/-- One step of the main codec loop: an RTX-named remote codec feeds the
RTX side map, any other remote codec is matched against the local list. -/
def codecStep (localCodecs : List CodecCapability)
    (st : List (Option PVal × Int) × List CodecCapability)
    (remoteCodec : CodecCapability) :
    List (Option PVal × Int) × List CodecCapability :=
  if isRtxName remoteCodec.name then
    (mapSet st.1 (mapGet remoteCodec.parameters "apt") remoteCodec.preferredPayloadType, st.2)
  else
    match localCodecs.find? (codecMatches remoteCodec) with
    | none => st
    | some localCodec => (st.1, st.2 ++ [negotiateCodec localCodec remoteCodec])

/-- The synthesized RTX codec entry for a negotiated codec. -/
def mkRtxCodec (codec : CodecCapability) (rtxPayloadType : Int) : CodecCapability :=
  { clockRate := codec.clockRate
  , kind := codec.kind
  , mimeType := codec.kind ++ "/rtx"
  , name := "rtx"
  , numChannels := none
  , parameters := [("apt", PVal.num codec.preferredPayloadType)]
  , preferredPayloadType := rtxPayloadType
  , rtcpFeedback := [] }

/-- The RTX synthesis loop. The JS `for...of` iterates the codec array
while appending to it, so the loop also visits the entries it appends;
`fuel` bounds the number of iterations (`none` models divergence). -/
def rtxLoop (rtxMap : List (Option PVal × Int)) :
    Nat → List CodecCapability → Nat → Option (List CodecCapability)
  | 0, _, _ => none
  | fuel + 1, codecs, i =>
    if h : i < codecs.length then
      let c := codecs.get ⟨i, h⟩
      match mapGet rtxMap (some (PVal.num c.preferredPayloadType)) with
      | some rtxPayloadType => rtxLoop rtxMap fuel (codecs ++ [mkRtxCodec c rtxPayloadType]) (i + 1)
      | none => rtxLoop rtxMap fuel codecs (i + 1)
    else some codecs

/-- Negotiation of one remote header extension. -/
def negotiateExtension (localExts : List HeaderExtension) (acc : List HeaderExtension)
    (remoteExtension : HeaderExtension) : List HeaderExtension :=
  match localExts.find? (fun e => decide (e.kind = remoteExtension.kind ∧ e.uri = remoteExtension.uri)) with
  | some localExtension =>
    acc ++ [{ kind := localExtension.kind
            , uri := localExtension.uri
            , preferredId := remoteExtension.preferredId
            , preferredEncrypt := some (decide (remoteExtension.preferredEncrypt = some true)) }]
  | none => acc

/-- Negotiation of one remote FEC mechanism (a found empty string is
JS-falsy and is dropped). -/
def negotiateFec (localFecs : List String) (acc : List String) (remoteFec : String) : List String :=
  match localFecs.find? (fun fec => decide (fec = remoteFec)) with
  | some localFec => if localFec = "" then acc else acc ++ [localFec]
  | none => acc

/-- `getLocalCapabilities(filterWithCapabilities)`, with the browser's full
local capability set passed explicitly and `fuel` bounding the RTX loop. -/
def getLocalCapabilities (fuel : Nat) (localFullCapabilities filterWithCapabilities : RtpCapabilities) :
    Option RtpCapabilities :=
  let st := filterWithCapabilities.codecs.foldl (codecStep localFullCapabilities.codecs) ([], [])
  match rtxLoop st.1 fuel st.2 0 with
  | none => none
  | some codecs =>
    some { codecs := codecs
         , fecMechanisms :=
             filterWithCapabilities.fecMechanisms.foldl
               (negotiateFec localFullCapabilities.fecMechanisms) []
         , headerExtensions :=
             filterWithCapabilities.headerExtensions.foldl
               (negotiateExtension localFullCapabilities.headerExtensions) [] }

/-! ## Association-list lemmas -/

theorem mapGet_mapSet {α β : Type} [DecidableEq α] (m : List (α × β)) (k : α) (v : β) (k' : α) :
    mapGet (mapSet m k v) k' = if k = k' then some v else mapGet m k' := by
  induction m with
  | nil =>
    by_cases h : k = k' <;> simp [mapSet, mapGet, h]
  | cons p t ih =>
    by_cases hp : p.1 = k
    · subst hp
      by_cases h : p.1 = k' <;> simp [mapSet, mapGet, h]
    · by_cases h : k = k'
      · subst h
        simp [mapSet, mapGet, hp, ih]
      · simp [mapSet, mapGet, hp, ih, h]

theorem mem_of_mapGet_eq_some {α β : Type} [DecidableEq α] {m : List (α × β)} {k : α} {v : β}
    (h : mapGet m k = some v) : (k, v) ∈ m := by
  induction m with
  | nil => simp [mapGet] at h
  | cons p t ih =>
    rw [mapGet] at h
    split at h
    · next heq =>
      cases h
      subst heq
      exact List.mem_cons_self _ _
    · exact List.mem_cons_of_mem _ (ih h)

theorem mapGet_isSome_iff {α β : Type} [DecidableEq α] (m : List (α × β)) (k : α) :
    (mapGet m k).isSome ↔ k ∈ m.map Prod.fst := by
  induction m with
  | nil => simp [mapGet]
  | cons p t ih =>
    by_cases hp : p.1 = k
    · simp [mapGet, hp]
    · have hp' : ¬k = p.1 := fun h => hp h.symm
      simp [mapGet, hp, hp', ih]

theorem keys_mapSet_of_mem {α β : Type} [DecidableEq α] {m : List (α × β)} {k : α} (v : β)
    (h : k ∈ m.map Prod.fst) :
    (mapSet m k v).map Prod.fst = m.map Prod.fst := by
  induction m with
  | nil => simp at h
  | cons p t ih =>
    by_cases hp : p.1 = k
    · simp [mapSet, hp]
    · rw [List.map_cons, List.mem_cons] at h
      rcases h with h | h
      · exact absurd h.symm hp
      · simp [mapSet, hp, ih h]

theorem keys_mapSet_of_not_mem {α β : Type} [DecidableEq α] {m : List (α × β)} {k : α} (v : β)
    (h : k ∉ m.map Prod.fst) :
    (mapSet m k v).map Prod.fst = m.map Prod.fst ++ [k] := by
  induction m with
  | nil => simp [mapSet]
  | cons p t ih =>
    rw [List.map_cons, List.mem_cons] at h
    push_neg at h
    have hp : ¬p.1 = k := fun hh => h.1 hh.symm
    simp [mapSet, hp, ih h.2]

theorem nodup_keys_mapSet {α β : Type} [DecidableEq α] {m : List (α × β)} (k : α) (v : β)
    (h : (m.map Prod.fst).Nodup) : ((mapSet m k v).map Prod.fst).Nodup := by
  by_cases hk : k ∈ m.map Prod.fst
  · rw [keys_mapSet_of_mem v hk]
    exact h
  · rw [keys_mapSet_of_not_mem v hk]
    exact List.Nodup.append h (List.nodup_singleton k) (by simpa using hk)

theorem mem_mapSet_elim {α β : Type} [DecidableEq α] {m : List (α × β)} {k : α} {v : β}
    {q : α × β} (h : q ∈ mapSet m k v) : q ∈ m ∨ q = (k, v) := by
  induction m with
  | nil => simpa [mapSet] using h
  | cons p t ih =>
    rw [mapSet] at h
    split at h
    · rcases List.mem_cons.mp h with h | h
      · exact Or.inr h
      · exact Or.inl (List.mem_cons_of_mem _ h)
    · rcases List.mem_cons.mp h with h | h
      · exact Or.inl (h ▸ List.mem_cons_self _ _)
      · rcases ih h with h | h
        · exact Or.inl (List.mem_cons_of_mem _ h)
        · exact Or.inr h

/-- Characterization of a successful `List.find?`: the found element is the
first one in the list satisfying the predicate. -/
theorem find?_eq_some_first {α : Type} {p : α → Bool} {l : List α} {a : α}
    (h : l.find? p = some a) :
    p a = true ∧ ∃ i, ∃ hi : i < l.length, l.get ⟨i, hi⟩ = a ∧
      ∀ j, (hj : j < l.length) → j < i → p (l.get ⟨j, hj⟩) = false := by
  induction l with
  | nil => simp at h
  | cons x t ih =>
    by_cases hx : p x
    · rw [List.find?_cons_of_pos _ hx] at h
      cases h
      refine ⟨hx, 0, by simp, rfl, ?_⟩
      intro j hj hj0
      omega
    · rw [List.find?_cons_of_neg _ (by simpa using hx)] at h
      obtain ⟨hpa, i, hi, hget, hfirst⟩ := ih h
      refine ⟨hpa, i + 1, by simpa using Nat.succ_lt_succ hi, by simpa using hget, ?_⟩
      intro j hj hji
      match j with
      | 0 => simpa using hx
      | j' + 1 =>
        have hj' : j' < t.length := by simpa using hj
        simpa using hfirst j' hj' (by omega)

/-! ## C4: failure without an active media section, and active-section
selection -/

/-- **C4**: when no media section carries both a non-empty ICE user
fragment and a nonzero port, DTLS and ICE extraction fail (the embedded
functions return `none`, modelling the propagated error); otherwise the
section used is the first one satisfying both conditions. -/
theorem active_section_failure_and_selection (sdp : SdpObject) :
    ((∀ m ∈ sdp.media, ¬(m.iceUfrag ≠ "" ∧ m.port ≠ 0)) →
        extractDtlsParameters sdp = none ∧ extractIceParameters sdp = none ∧
          extractIceCandidates sdp = none) ∧
    (∀ m, getFirstActiveMediaSection sdp = some m →
        (m.iceUfrag ≠ "" ∧ m.port ≠ 0) ∧
        ∃ i, ∃ hi : i < sdp.media.length, sdp.media.get ⟨i, hi⟩ = m ∧
          ∀ j, (hj : j < sdp.media.length) → j < i →
            ¬((sdp.media.get ⟨j, hj⟩).iceUfrag ≠ "" ∧ (sdp.media.get ⟨j, hj⟩).port ≠ 0)) := by
  constructor
  · intro h
    have hn : getFirstActiveMediaSection sdp = none := by
      rw [getFirstActiveMediaSection, List.find?_eq_none]
      intro m hm
      simpa using h m hm
    exact ⟨by simp [extractDtlsParameters, hn], by simp [extractIceParameters, hn],
      by simp [extractIceCandidates, hn]⟩
  · intro m hm
    obtain ⟨hp, i, hi, hget, hfirst⟩ := find?_eq_some_first hm
    refine ⟨by simpa using hp, i, hi, hget, ?_⟩
    intro j hj hji
    simpa using hfirst j hj hji

/-- Witness for C4 at a document whose only section has port `0` and no
ICE user fragment. -/
theorem active_section_failure_witness :
    extractDtlsParameters { media := [{ type := "audio" }] } = none ∧
    extractIceParameters { media := [{ type := "audio" }] } = none ∧
    extractIceCandidates { media := [{ type := "audio" }] } = none :=
  (active_section_failure_and_selection { media := [{ type := "audio" }] }).1 (by decide)

/-! ## C3: the DTLS setup-role mapping -/

/-- A document whose active section carries the unrecognized setup value
`"holdconn"`. -/
def unknownSetupDoc : SdpObject :=
  { media := [ { type := "audio", port := 9, iceUfrag := "uf", setup := some "holdconn"
               , fingerprint := some { type := "sha-256", hash := "AB" } } ] }

/-- **C3, counterexample**: an unrecognized setup value does not make the
extraction fail; it yields a successfully extracted record whose role is
absent (the JS switch has no default case and leaves `role` undefined). -/
theorem dtls_unknown_setup_returns_record :
    extractDtlsParameters unknownSetupDoc ≠ none ∧
    extractDtlsParameters unknownSetupDoc =
      some { role := none, fingerprints := [{ algorithm := "sha-256", value := "AB" }] } := by
  refine ⟨?_, rfl⟩
  decide

/-- **C3, amended**: for a document with an active section and a
fingerprint, extraction succeeds and maps setup `"active"` to role
`"client"`, `"passive"` to `"server"`, `"actpass"` to `"auto"`, and any
other or missing setup value to an absent role (not a failure). -/
theorem dtls_role_mapping (sdp : SdpObject) (m : MediaSection) (fp : FingerprintEntry)
    (h1 : getFirstActiveMediaSection sdp = some m)
    (h2 : jsOrO m.fingerprint sdp.fingerprint = some fp) :
    ∃ d, extractDtlsParameters sdp = some d ∧
      d.fingerprints = [{ algorithm := fp.type, value := fp.hash }] ∧
      (m.setup = some "active" → d.role = some "client") ∧
      (m.setup = some "passive" → d.role = some "server") ∧
      (m.setup = some "actpass" → d.role = some "auto") ∧
      (∀ s, m.setup = some s → s ≠ "active" → s ≠ "passive" → s ≠ "actpass" → d.role = none) ∧
      (m.setup = none → d.role = none) := by
  refine ⟨{ role := setupRole m.setup
          , fingerprints := [{ algorithm := fp.type, value := fp.hash }] },
    by simp [extractDtlsParameters, h1, h2], rfl, ?_, ?_, ?_, ?_, ?_⟩
  · intro h
    simp [setupRole, h]
  · intro h
    simp [setupRole, h]
  · intro h
    simp [setupRole, h]
  · intro s h h1 h2 h3
    simp [setupRole, h, h1, h2, h3]
  · intro h
    simp [setupRole, h]

/-- Witness for C3's amended theorem at the `"actpass"` scenario of the
specification. -/
theorem dtls_role_mapping_witness :
    ∃ d, extractDtlsParameters
        { media := [ { type := "audio", port := 9, iceUfrag := "uf", setup := some "actpass"
                     , fingerprint := some { type := "sha-256", hash := "AB:CD" } } ] } = some d ∧
      d.fingerprints = [{ algorithm := "sha-256", value := "AB:CD" }] ∧
      ((some "actpass" : Option String) = some "active" → d.role = some "client") ∧
      ((some "actpass" : Option String) = some "passive" → d.role = some "server") ∧
      ((some "actpass" : Option String) = some "actpass" → d.role = some "auto") ∧
      (∀ s, (some "actpass" : Option String) = some s →
        s ≠ "active" → s ≠ "passive" → s ≠ "actpass" → d.role = none) ∧
      ((some "actpass" : Option String) = none → d.role = none) :=
  dtls_role_mapping
    { media := [ { type := "audio", port := 9, iceUfrag := "uf", setup := some "actpass"
                 , fingerprint := some { type := "sha-256", hash := "AB:CD" } } ] }
    { type := "audio", port := 9, iceUfrag := "uf", setup := some "actpass"
    , fingerprint := some { type := "sha-256", hash := "AB:CD" } }
    { type := "sha-256", hash := "AB:CD" } (by rfl) (by rfl)

/-! ## Characterization of the codec negotiation loop -/

/-- Contribution of one remote codec to the negotiated codec list: RTX-named
codecs contribute nothing (they feed the side map), others contribute the
negotiated codec when a local match exists. -/
def negResult (localCodecs : List CodecCapability) (remoteCodec : CodecCapability) :
    Option CodecCapability :=
  if isRtxName remoteCodec.name then none
  else (localCodecs.find? (codecMatches remoteCodec)).map (fun lc => negotiateCodec lc remoteCodec)

/-- The negotiated non-RTX codecs, in remote declaration order. -/
def negotiatedPrimaries (localCodecs remoteCodecs : List CodecCapability) : List CodecCapability :=
  remoteCodecs.filterMap (negResult localCodecs)

/-- The RTX side-map contribution of one remote codec. -/
def rtxMapStep (m : List (Option PVal × Int)) (rc : CodecCapability) : List (Option PVal × Int) :=
  if isRtxName rc.name then mapSet m (mapGet rc.parameters "apt") rc.preferredPayloadType else m

/-- The RTX side map recorded in step 1 of the negotiation: `apt` parameter
value of each RTX-named remote codec to its preferred payload type. -/
def remoteRtxMap (remoteCodecs : List CodecCapability) : List (Option PVal × Int) :=
  remoteCodecs.foldl rtxMapStep []

theorem codecFold_eq (localCodecs : List CodecCapability) :
    ∀ (remotes : List CodecCapability) (m0 : List (Option PVal × Int)) (cs0 : List CodecCapability),
    remotes.foldl (codecStep localCodecs) (m0, cs0)
      = (remotes.foldl rtxMapStep m0, cs0 ++ remotes.filterMap (negResult localCodecs)) := by
  intro remotes
  induction remotes with
  | nil =>
    intro m0 cs0
    simp
  | cons rc t ih =>
    intro m0 cs0
    by_cases hr : isRtxName rc.name
    · have hnone : negResult localCodecs rc = none := by simp [negResult, hr]
      simp only [List.foldl_cons, List.filterMap_cons, hnone]
      rw [show codecStep localCodecs (m0, cs0) rc = (rtxMapStep m0 rc, cs0) by
        simp [codecStep, rtxMapStep, hr]]
      exact ih (rtxMapStep m0 rc) cs0
    · cases hfind : localCodecs.find? (codecMatches rc) with
      | none =>
        have hnone : negResult localCodecs rc = none := by simp [negResult, hr, hfind]
        simp only [List.foldl_cons, List.filterMap_cons, hnone]
        rw [show codecStep localCodecs (m0, cs0) rc = (rtxMapStep m0 rc, cs0) by
          simp [codecStep, rtxMapStep, hr, hfind]]
        exact ih (rtxMapStep m0 rc) cs0
      | some lc =>
        have hsome : negResult localCodecs rc = some (negotiateCodec lc rc) := by
          simp [negResult, hr, hfind]
        simp only [List.foldl_cons, List.filterMap_cons, hsome]
        rw [show codecStep localCodecs (m0, cs0) rc
            = (rtxMapStep m0 rc, cs0 ++ [negotiateCodec lc rc]) by
          simp [codecStep, rtxMapStep, hr, hfind]]
        rw [ih (rtxMapStep m0 rc) (cs0 ++ [negotiateCodec lc rc])]
        simp

/-- Every successful run of the RTX loop only appends entries, and every
appended entry is a synthesized RTX codec (name `"rtx"`). -/
theorem rtxLoop_shape (rtxMap : List (Option PVal × Int)) :
    ∀ (fuel : Nat) (codecs : List CodecCapability) (i : Nat) (out : List CodecCapability),
    rtxLoop rtxMap fuel codecs i = some out →
    ∃ extra, out = codecs ++ extra ∧ ∀ e ∈ extra, e.name = "rtx" := by
  intro fuel
  induction fuel with
  | zero =>
    intro codecs i out h
    simp [rtxLoop] at h
  | succ fuel ih =>
    intro codecs i out h
    rw [rtxLoop] at h
    split at h
    · dsimp only at h
      split at h
      · next rtxPt _ =>
        obtain ⟨extra, hout, hname⟩ := ih _ _ _ h
        refine ⟨mkRtxCodec _ rtxPt :: extra, by simpa using hout, ?_⟩
        intro e he
        rcases List.mem_cons.mp he with he | he
        · subst he
          rfl
        · exact hname e he
      · exact ih _ _ _ h
    · cases h
      exact ⟨[], by simp, by simp⟩

/-- Structure of the negotiated codec list: the negotiated non-RTX codecs
in remote order, followed only by synthesized RTX entries. -/
theorem getLocalCapabilities_codecs (fuel : Nat) (lcaps rcaps caps : RtpCapabilities)
    (h : getLocalCapabilities fuel lcaps rcaps = some caps) :
    ∃ extra, caps.codecs = negotiatedPrimaries lcaps.codecs rcaps.codecs ++ extra ∧
      ∀ e ∈ extra, e.name = "rtx" := by
  rw [getLocalCapabilities] at h
  simp only [codecFold_eq lcaps.codecs rcaps.codecs [] []] at h
  split at h
  · exact absurd h (by simp)
  · next out hout =>
    cases h
    obtain ⟨extra, hsh, hname⟩ := rtxLoop_shape _ _ _ _ _ hout
    exact ⟨extra, by simpa [negotiatedPrimaries] using hsh, hname⟩

theorem negotiateFeedback_aux (localFbs : List RtcpFeedback) :
    ∀ (remoteFbs acc : List RtcpFeedback),
    remoteFbs.foldl (fun acc rfb =>
      match localFbs.find? (fun lfb => decide (lfb.type = rfb.type ∧ lfb.parameter = rfb.parameter)) with
      | some lfb => acc ++ [lfb]
      | none => acc) acc
    = acc ++ remoteFbs.filter (fun rfb => decide (rfb ∈ localFbs)) := by
  intro remoteFbs
  induction remoteFbs with
  | nil =>
    intro acc
    simp
  | cons rfb t ih =>
    intro acc
    rw [List.foldl_cons]
    cases hf : localFbs.find? (fun lfb => decide (lfb.type = rfb.type ∧ lfb.parameter = rfb.parameter)) with
    | some lfb =>
      have heq : lfb = rfb := by
        have h1 := List.find?_some hf
        simp only [decide_eq_true_eq] at h1
        cases lfb
        cases rfb
        simp_all
      have hmem : rfb ∈ localFbs := heq ▸ List.mem_of_find?_eq_some hf
      simp only [hf, heq]
      rw [ih]
      rw [List.filter_cons_of_pos (by simpa using hmem)]
      simp [List.append_assoc]
    | none =>
      have hmem : rfb ∉ localFbs := by
        intro hmem
        have := List.find?_eq_none.mp hf rfb hmem
        simp at this
      simp only [hf]
      rw [ih]
      rw [List.filter_cons_of_neg (by simpa using hmem)]

/-- The feedback intersection keeps exactly the remote entries that also
occur locally, in remote iteration order. -/
theorem negotiateFeedback_eq_filter (localFbs remoteFbs : List RtcpFeedback) :
    negotiateFeedback localFbs remoteFbs
      = remoteFbs.filter (fun rfb => decide (rfb ∈ localFbs)) := by
  unfold negotiateFeedback
  exact negotiateFeedback_aux localFbs remoteFbs []

/-! ## C2: the feedback intersection -/

/-- Local codec for the C2 counterexample, feedback declared
`ccm/fir` before `nack`. -/
def lcC2 : CodecCapability :=
  { clockRate := 48000, kind := "audio", mimeType := "audio/opus", name := "opus"
  , numChannels := some 2, parameters := [], preferredPayloadType := 111
  , rtcpFeedback := [{ type := "ccm", parameter := "fir" }, { type := "nack", parameter := "" }] }

/-- Remote codec for the C2 counterexample, feedback declared
`nack` before `ccm/fir`. -/
def rcC2 : CodecCapability :=
  { clockRate := 48000, kind := "audio", mimeType := "audio/opus", name := "opus"
  , numChannels := some 2, parameters := [], preferredPayloadType := 100
  , rtcpFeedback := [{ type := "nack", parameter := "" }, { type := "ccm", parameter := "fir" }] }

/-- **C2, counterexample**: both feedback entries are kept, but the
negotiated codec lists them in *remote* declaration order
(`nack` before `ccm/fir`), not in local declaration order. -/
theorem feedback_order_counterexample :
    (getLocalCapabilities 3 { codecs := [lcC2] } { codecs := [rcC2] }).map
        (fun caps => caps.codecs.map (·.rtcpFeedback))
      = some [[{ type := "nack", parameter := "" }, { type := "ccm", parameter := "fir" }]] ∧
    lcC2.rtcpFeedback.filter (fun fb => decide (fb ∈ rcC2.rtcpFeedback))
      = [{ type := "ccm", parameter := "fir" }, { type := "nack", parameter := "" }] ∧
    ([{ type := "nack", parameter := "" }, { type := "ccm", parameter := "fir" }] : List RtcpFeedback)
      ≠ [{ type := "ccm", parameter := "fir" }, { type := "nack", parameter := "" }] := by
  refine ⟨by decide, by decide, ?_⟩
  decide

/-- **C2, amended**: for every matched remote codec, a feedback entry is
kept in the negotiated codec iff the same `(type, parameter)` pair exists
on both sides, and the kept entries appear in *remote* declaration order
(the loop iterates the remote feedback list). -/
theorem feedback_intersection (fuel : Nat) (lcaps rcaps caps : RtpCapabilities)
    (rc lc : CodecCapability)
    (h : getLocalCapabilities fuel lcaps rcaps = some caps)
    (hrc : rc ∈ rcaps.codecs) (hnotrtx : isRtxName rc.name = false)
    (hfind : lcaps.codecs.find? (codecMatches rc) = some lc) :
    negotiateCodec lc rc ∈ caps.codecs ∧
    (negotiateCodec lc rc).rtcpFeedback
      = rc.rtcpFeedback.filter (fun rfb => decide (rfb ∈ lc.rtcpFeedback)) ∧
    (∀ fb, fb ∈ (negotiateCodec lc rc).rtcpFeedback ↔
      fb ∈ lc.rtcpFeedback ∧ fb ∈ rc.rtcpFeedback) := by
  obtain ⟨extra, hcs, -⟩ := getLocalCapabilities_codecs fuel lcaps rcaps caps h
  have hres : negResult lcaps.codecs rc = some (negotiateCodec lc rc) := by
    simp [negResult, hnotrtx, hfind]
  have hfb : (negotiateCodec lc rc).rtcpFeedback
      = rc.rtcpFeedback.filter (fun rfb => decide (rfb ∈ lc.rtcpFeedback)) :=
    negotiateFeedback_eq_filter lc.rtcpFeedback rc.rtcpFeedback
  refine ⟨?_, hfb, ?_⟩
  · rw [hcs]
    exact List.mem_append_left _ (List.mem_filterMap.mpr ⟨rc, hrc, hres⟩)
  · intro fb
    rw [hfb]
    simp [List.mem_filter, and_comm]

/-- The negotiated capability record of the C2 scenario. -/
def capsC2 : RtpCapabilities :=
  { codecs := [{ clockRate := 48000, kind := "audio", mimeType := "audio/opus", name := "opus"
               , numChannels := some 2, parameters := [], preferredPayloadType := 100
               , rtcpFeedback := [{ type := "nack", parameter := "" }
                                 , { type := "ccm", parameter := "fir" }] }] }

/-- Witness for C2's amended theorem at the opus scenario. -/
theorem feedback_intersection_witness :
    negotiateCodec lcC2 rcC2 ∈ capsC2.codecs ∧
    (negotiateCodec lcC2 rcC2).rtcpFeedback
      = rcC2.rtcpFeedback.filter (fun rfb => decide (rfb ∈ lcC2.rtcpFeedback)) ∧
    ({ type := "nack", parameter := "" } ∈ (negotiateCodec lcC2 rcC2).rtcpFeedback ↔
      { type := "nack", parameter := "" } ∈ lcC2.rtcpFeedback ∧
        { type := "nack", parameter := "" } ∈ rcC2.rtcpFeedback) := by
  have h := feedback_intersection 3 { codecs := [lcC2] } { codecs := [rcC2] } capsC2 rcC2 lcC2
    (by decide) (List.mem_cons_self _ _) (by decide) (by decide)
  exact ⟨h.1, h.2.1, h.2.2 _⟩

/-! ## C8: dropping and field provenance of matched codecs -/

/-- **C8**: unmatched non-RTX remote codecs are silently dropped (they
contribute nothing to the result, which is still produced), and a matched
one yields a codec carrying the local clock rate, kind, name and channel
count but the remote preferred payload type. -/
theorem codec_matching_projection (fuel : Nat) (lcaps rcaps caps : RtpCapabilities)
    (h : getLocalCapabilities fuel lcaps rcaps = some caps) :
    (∃ extra, caps.codecs = negotiatedPrimaries lcaps.codecs rcaps.codecs ++ extra ∧
        ∀ e ∈ extra, e.name = "rtx") ∧
    ∀ rc, isRtxName rc.name = false →
      (lcaps.codecs.find? (codecMatches rc) = none → negResult lcaps.codecs rc = none) ∧
      (∀ lc, lcaps.codecs.find? (codecMatches rc) = some lc →
        negResult lcaps.codecs rc = some (negotiateCodec lc rc) ∧
        (negotiateCodec lc rc).clockRate = lc.clockRate ∧
        (negotiateCodec lc rc).kind = lc.kind ∧
        (negotiateCodec lc rc).name = lc.name ∧
        (∀ n, lc.numChannels = some n → n ≠ 0 → (negotiateCodec lc rc).numChannels = some n) ∧
        (negotiateCodec lc rc).preferredPayloadType = rc.preferredPayloadType) := by
  refine ⟨getLocalCapabilities_codecs fuel lcaps rcaps caps h, ?_⟩
  intro rc hnotrtx
  constructor
  · intro hf
    simp [negResult, hnotrtx, hf]
  · intro lc hf
    refine ⟨by simp [negResult, hnotrtx, hf], rfl, rfl, rfl, ?_, rfl⟩
    intro n hn hn0
    simp [negotiateCodec, jsOrInt, hn, hn0]

/-- Local VP8 codec of the specification's negotiation scenario. -/
def localVp8 : CodecCapability :=
  { clockRate := 90000, kind := "video", mimeType := "video/vp8", name := "vp8"
  , numChannels := some 1, parameters := [], preferredPayloadType := 101, rtcpFeedback := [] }

/-- Remote VP8 codec at payload type 96. -/
def remoteVp8 : CodecCapability :=
  { clockRate := 90000, kind := "video", mimeType := "video/vp8", name := "vp8"
  , numChannels := some 1, parameters := [], preferredPayloadType := 96, rtcpFeedback := [] }

/-- Remote RTX codec at payload type 97 with `apt = 96`. -/
def remoteRtx97 : CodecCapability :=
  { clockRate := 90000, kind := "video", mimeType := "video/rtx", name := "rtx"
  , numChannels := some 1, parameters := [("apt", PVal.num 96)]
  , preferredPayloadType := 97, rtcpFeedback := [] }

/-- Negotiated result of the specification's VP8/RTX scenario. -/
def capsVp8Rtx : RtpCapabilities :=
  { codecs := [ { clockRate := 90000, kind := "video", mimeType := "video/vp8", name := "vp8"
                , numChannels := some 1, parameters := [], preferredPayloadType := 96
                , rtcpFeedback := [] }
              , { clockRate := 90000, kind := "video", mimeType := "video/rtx", name := "rtx"
                , numChannels := none, parameters := [("apt", PVal.num 96)]
                , preferredPayloadType := 97, rtcpFeedback := [] } ] }

/-- Witness for C8 at the VP8/RTX scenario. -/
theorem codec_matching_projection_witness :
    (∃ extra, capsVp8Rtx.codecs
        = negotiatedPrimaries [localVp8] [remoteVp8, remoteRtx97] ++ extra ∧
        ∀ e ∈ extra, e.name = "rtx") ∧
    negResult [localVp8] remoteVp8 = some (negotiateCodec localVp8 remoteVp8) ∧
    (negotiateCodec localVp8 remoteVp8).preferredPayloadType = remoteVp8.preferredPayloadType := by
  have h := codec_matching_projection 5 { codecs := [localVp8] }
    { codecs := [remoteVp8, remoteRtx97] } capsVp8Rtx (by decide)
  have h2 := (h.2 remoteVp8 (by decide)).2 localVp8 (by decide)
  exact ⟨h.1, h2.1, h2.2.2.2.2.2⟩

/-! ## C9: order-independence of the matching in the local codec list -/

/-- **C9**: permuting the local capability provider's codec list changes
neither which remote codecs find a local match nor the payload types of
the negotiated primary codecs. -/
theorem negotiation_order_independent (localCodecs localCodecs' remoteCodecs : List CodecCapability)
    (hperm : localCodecs.Perm localCodecs') :
    (∀ rc ∈ remoteCodecs, ((localCodecs.find? (codecMatches rc)).isSome
        ↔ (localCodecs'.find? (codecMatches rc)).isSome)) ∧
    (negotiatedPrimaries localCodecs remoteCodecs).map (·.preferredPayloadType)
      = (negotiatedPrimaries localCodecs' remoteCodecs).map (·.preferredPayloadType) := by
  have hiff : ∀ rc : CodecCapability, ((localCodecs.find? (codecMatches rc)).isSome
      ↔ (localCodecs'.find? (codecMatches rc)).isSome) := by
    intro rc
    rw [List.find?_isSome, List.find?_isSome]
    exact ⟨fun ⟨x, hx, hpx⟩ => ⟨x, hperm.mem_iff.mp hx, hpx⟩,
      fun ⟨x, hx, hpx⟩ => ⟨x, hperm.mem_iff.mpr hx, hpx⟩⟩
  refine ⟨fun rc _ => hiff rc, ?_⟩
  induction remoteCodecs with
  | nil => rfl
  | cons rc t ih =>
    simp only [negotiatedPrimaries, List.filterMap_cons] at *
    by_cases hr : isRtxName rc.name
    · simpa [negResult, hr] using ih
    · cases hf : localCodecs.find? (codecMatches rc) with
      | none =>
        have h2 : localCodecs'.find? (codecMatches rc) = none := by
          rcases h2 : localCodecs'.find? (codecMatches rc) with _ | lc'
          · rfl
          · exact absurd ((hiff rc).mpr (by simp [h2])) (by simp [hf])
        simpa [negResult, hr, hf, h2] using ih
      | some lc =>
        obtain ⟨lc', h2⟩ : ∃ lc', localCodecs'.find? (codecMatches rc) = some lc' := by
          have := (hiff rc).mp (by simp [hf])
          rcases h2 : localCodecs'.find? (codecMatches rc) with _ | lc'
          · rw [h2] at this
            simp at this
          · exact ⟨lc', rfl⟩
        simpa [negResult, hr, hf, h2, negotiateCodec] using ih

/-- Local opus codec used by the C9 witness. -/
def localOpus : CodecCapability :=
  { clockRate := 48000, kind := "audio", mimeType := "audio/opus", name := "opus"
  , numChannels := some 2, parameters := [], preferredPayloadType := 102, rtcpFeedback := [] }

/-- Witness for C9 on a two-element local list and its swap. -/
theorem negotiation_order_independent_witness :
    (negotiatedPrimaries [localVp8, localOpus] [remoteVp8, remoteRtx97]).map
        (·.preferredPayloadType)
      = (negotiatedPrimaries [localOpus, localVp8] [remoteVp8, remoteRtx97]).map
        (·.preferredPayloadType) :=
  (negotiation_order_independent [localVp8, localOpus] [localOpus, localVp8]
    [remoteVp8, remoteRtx97] (by decide)).2

/-! ## C1: RTX synthesis -/

/-- The RTX entries synthesized for a list of negotiated primaries, one
per primary whose payload type is a key of the RTX side map. -/
def rtxAppendix (rtxMap : List (Option PVal × Int)) (primaries : List CodecCapability) :
    List CodecCapability :=
  primaries.filterMap (fun c =>
    (mapGet rtxMap (some (PVal.num c.preferredPayloadType))).map (mkRtxCodec c))

theorem rtxLoop_step (M : List (Option PVal × Int)) (fuel : Nat) (codecs : List CodecCapability)
    (i : Nat) (h : i < codecs.length) :
    rtxLoop M (fuel + 1) codecs i =
      match mapGet M (some (PVal.num (codecs.get ⟨i, h⟩).preferredPayloadType)) with
      | some rtxPt => rtxLoop M fuel (codecs ++ [mkRtxCodec (codecs.get ⟨i, h⟩) rtxPt]) (i + 1)
      | none => rtxLoop M fuel codecs (i + 1) := by
  rw [rtxLoop, dif_pos h]

theorem rtxLoop_done (M : List (Option PVal × Int)) (fuel : Nat) (codecs : List CodecCapability)
    (i : Nat) (h : ¬i < codecs.length) :
    rtxLoop M (fuel + 1) codecs i = some codecs := by
  rw [rtxLoop, dif_neg h]

/-- When no entry from position `i` on fires the side map, the loop
terminates without appending anything. -/
theorem rtxLoop_no_fire (M : List (Option PVal × Int)) :
    ∀ (fuel : Nat) (codecs : List CodecCapability) (i : Nat) (out : List CodecCapability),
    (∀ j, (hj : j < codecs.length) → i ≤ j →
        mapGet M (some (PVal.num (codecs.get ⟨j, hj⟩).preferredPayloadType)) = none) →
    rtxLoop M fuel codecs i = some out → out = codecs := by
  intro fuel
  induction fuel with
  | zero =>
    intro codecs i out hno h
    simp [rtxLoop] at h
  | succ fuel ih =>
    intro codecs i out hno h
    by_cases hlt : i < codecs.length
    · rw [rtxLoop_step M fuel codecs i hlt, hno i hlt le_rfl] at h
      exact ih codecs (i + 1) out (fun j hj hij => hno j hj (by omega)) h
    · rw [rtxLoop_done M fuel codecs i hlt] at h
      cases h
      rfl

/-- Full characterization of a successful RTX loop run over primaries `P`
(with already-appended part `A`), provided no appended entry can fire the
side map again: the loop appends exactly one RTX entry per firing
primary, in order. -/
theorem rtxLoop_spec (M : List (Option PVal × Int)) :
    ∀ (fuel : Nat) (P A : List CodecCapability) (i : Nat) (out : List CodecCapability),
    i ≤ P.length →
    A = rtxAppendix M (P.take i) →
    (∀ a ∈ A, mapGet M (some (PVal.num a.preferredPayloadType)) = none) →
    (∀ c ∈ P, ∀ rtxPt : Int, mapGet M (some (PVal.num c.preferredPayloadType)) = some rtxPt →
        mapGet M (some (PVal.num rtxPt)) = none) →
    rtxLoop M fuel (P ++ A) i = some out →
    out = P ++ rtxAppendix M P := by
  intro fuel
  induction fuel with
  | zero =>
    intro P A i out _ _ _ _ h
    simp [rtxLoop] at h
  | succ fuel ih =>
    intro P A i out hi hA hAnone hPfire h
    by_cases hip : i < P.length
    · have hlen : i < (P ++ A).length := by
        simp only [List.length_append]
        omega
      rw [rtxLoop_step M fuel (P ++ A) i hlen] at h
      have hget : (P ++ A).get ⟨i, hlen⟩ = P[i] := by
        simp [List.getElem_append_left hip]
      rw [hget] at h
      have htake : P.take (i + 1) = P.take i ++ [P[i]] := by
        rw [← List.take_concat_get P i hip, List.concat_eq_append]
      split at h
      · next rtxPt heq =>
        have hA' : rtxAppendix M (P.take (i + 1))
            = A ++ [mkRtxCodec P[i] rtxPt] := by
          symm
          rw [rtxAppendix, htake, List.filterMap_append, hA]
          rw [rtxAppendix]
          congr 1
          simp [heq]
        have hAnone' : ∀ a ∈ A ++ [mkRtxCodec P[i] rtxPt],
            mapGet M (some (PVal.num a.preferredPayloadType)) = none := by
          intro a ha
          rcases List.mem_append.mp ha with ha | ha
          · exact hAnone a ha
          · rcases List.mem_singleton.mp ha with rfl
            exact hPfire _ (List.getElem_mem hip) rtxPt heq
        rw [List.append_assoc] at h
        exact ih P (A ++ [mkRtxCodec P[i] rtxPt]) (i + 1) out
          (by omega) hA'.symm hAnone' hPfire h
      · next heq =>
        have hA' : A = rtxAppendix M (P.take (i + 1)) := by
          rw [rtxAppendix, htake, List.filterMap_append, hA]
          rw [rtxAppendix]
          simp [heq]
        exact ih P A (i + 1) out (by omega) hA' hAnone hPfire h
    · have hieq : i = P.length := by omega
      have hno : ∀ j, (hj : j < (P ++ A).length) → i ≤ j →
          mapGet M (some (PVal.num ((P ++ A).get ⟨j, hj⟩).preferredPayloadType)) = none := by
        intro j hj hij
        have hjP : P.length ≤ j := by omega
        have hjA : j - P.length < A.length := by
          simp only [List.length_append] at hj
          omega
        have : (P ++ A).get ⟨j, hj⟩ = A.get ⟨j - P.length, hjA⟩ := by
          simp [List.getElem_append_right hjP]
        rw [this]
        exact hAnone _ (List.get_mem A _ _)
      have := rtxLoop_no_fire M (fuel + 1) (P ++ A) i out hno h
      rw [this, hA, hieq, List.take_length]

/-- Each binding of the RTX side map originates from some RTX-named remote
codec: key its `apt` parameter, value its preferred payload type. -/
theorem foldl_rtxMapStep_mem (l : List CodecCapability) :
    ∀ (m0 : List (Option PVal × Int)) (q : Option PVal × Int),
    q ∈ l.foldl rtxMapStep m0 →
    q ∈ m0 ∨ ∃ rc ∈ l, isRtxName rc.name = true ∧
      q = (mapGet rc.parameters "apt", rc.preferredPayloadType) := by
  induction l with
  | nil =>
    intro m0 q h
    exact Or.inl h
  | cons rc t ih =>
    intro m0 q h
    rw [List.foldl_cons] at h
    rcases ih _ _ h with h | ⟨rc', hrc', hname, hq⟩
    · by_cases hr : isRtxName rc.name = true
      · rw [rtxMapStep, if_pos hr] at h
        rcases mem_mapSet_elim h with h | h
        · exact Or.inl h
        · exact Or.inr ⟨rc, List.mem_cons_self _ _, hr, h⟩
      · rw [rtxMapStep, if_neg hr] at h
        exact Or.inl h
    · exact Or.inr ⟨rc', List.mem_cons_of_mem _ hrc', hname, hq⟩

theorem remoteRtxMap_mem (remoteCodecs : List CodecCapability) (q : Option PVal × Int)
    (h : q ∈ remoteRtxMap remoteCodecs) :
    ∃ rc ∈ remoteCodecs, isRtxName rc.name = true ∧
      q = (mapGet rc.parameters "apt", rc.preferredPayloadType) := by
  rcases foldl_rtxMapStep_mem remoteCodecs [] q h with h | h
  · simp at h
  · exact h

/-- No negotiated primary codec is RTX-named: it inherits the local
codec's name, which matches the non-RTX remote name case-insensitively. -/
theorem negotiatedPrimaries_not_rtx (locals remotes : List CodecCapability) :
    ∀ c ∈ negotiatedPrimaries locals remotes, isRtxName c.name = false := by
  intro c hc
  obtain ⟨rc, hrc, hres⟩ := List.mem_filterMap.mp hc
  rw [negResult] at hres
  split at hres
  · cases hres
  · next hr =>
    obtain ⟨lc, hlc, hceq⟩ := Option.map_eq_some'.mp hres
    have hmatch := List.find?_some hlc
    rw [codecMatches, decide_eq_true_eq] at hmatch
    obtain ⟨hname, -, -⟩ := hmatch
    subst hceq
    have hsame : isRtxName (negotiateCodec lc rc).name = isRtxName rc.name := by
      show isRtxName lc.name = isRtxName rc.name
      rw [isRtxName, isRtxName, hname]
    rw [hsame]
    simpa using hr

/-- The payload types of the negotiated primaries form a sublist of the
remote payload types. -/
theorem negotiatedPrimaries_pts_sublist (locals remotes : List CodecCapability) :
    ((negotiatedPrimaries locals remotes).map (·.preferredPayloadType)).Sublist
      (remotes.map (·.preferredPayloadType)) := by
  unfold negotiatedPrimaries
  induction remotes with
  | nil => simp
  | cons rc t ih =>
    rw [List.filterMap_cons]
    cases hr : negResult locals rc with
    | none =>
      exact List.Sublist.cons _ ih
    | some c =>
      have hpt : c.preferredPayloadType = rc.preferredPayloadType := by
        rw [negResult] at hr
        split at hr
        · cases hr
        · obtain ⟨lc, -, hceq⟩ := Option.map_eq_some'.mp hr
          rw [← hceq]
          rfl
      simp only [List.map_cons]
      rw [← hpt]
      exact List.Sublist.cons₂ _ ih

/-- Remote RTX codec at payload type 98 whose `apt` points at *another
RTX* payload type (97), chaining the synthesis. -/
def remoteRtx98 : CodecCapability :=
  { clockRate := 90000, kind := "video", mimeType := "video/rtx", name := "rtx"
  , numChannels := some 1, parameters := [("apt", PVal.num 97)]
  , preferredPayloadType := 98, rtcpFeedback := [] }

/-- The negotiated VP8 primary of the chained scenario. -/
def synVp8 : CodecCapability :=
  { clockRate := 90000, kind := "video", mimeType := "video/vp8", name := "vp8"
  , numChannels := some 1, parameters := [], preferredPayloadType := 96, rtcpFeedback := [] }

/-- The RTX entry synthesized for VP8. -/
def synRtx97 : CodecCapability :=
  { clockRate := 90000, kind := "video", mimeType := "video/rtx", name := "rtx"
  , numChannels := none, parameters := [("apt", PVal.num 96)]
  , preferredPayloadType := 97, rtcpFeedback := [] }

/-- The RTX entry synthesized *for the synthesized RTX entry 97*: the JS
`for...of` loop also visits the entries it appended. -/
def synRtx98 : CodecCapability :=
  { clockRate := 90000, kind := "video", mimeType := "video/rtx", name := "rtx"
  , numChannels := none, parameters := [("apt", PVal.num 97)]
  , preferredPayloadType := 98, rtcpFeedback := [] }

/-- **C1, counterexample**: with remote codecs VP8\@96, RTX\@97 (apt 96)
and RTX\@98 (apt 97), the loop synthesizes an RTX entry (98, apt 97)
whose `apt` is the payload type of *no* negotiated primary codec — the
only primary has payload type 96. -/
theorem rtx_synthesis_counterexample :
    getLocalCapabilities 10 { codecs := [localVp8] }
        { codecs := [remoteVp8, remoteRtx97, remoteRtx98] }
      = some { codecs := [synVp8, synRtx97, synRtx98] } ∧
    negotiatedPrimaries [localVp8] [remoteVp8, remoteRtx97, remoteRtx98] = [synVp8] ∧
    synRtx98.name = "rtx" ∧
    mapGet synRtx98.parameters "apt" = some (PVal.num 97) ∧
    synVp8.preferredPayloadType ≠ 97 := by
  refine ⟨by decide, by decide, rfl, by decide, by decide⟩

/-- **C1, amended**: when the remote payload types are pairwise distinct
and no remote RTX codec's `apt` equals a remote RTX codec's payload type
(so the loop never fires on an entry it appended), the negotiated result
is the primaries followed by the synthesized RTX entries, and every
synthesized entry has name `"rtx"`, its primary's clock rate and kind,
the remote's associated RTX payload type, and an `apt` equal to the
payload type of exactly one negotiated primary codec in the result. -/
theorem rtx_synthesis (fuel : Nat) (lcaps rcaps caps : RtpCapabilities)
    (hpt : (rcaps.codecs.map (·.preferredPayloadType)).Nodup)
    (hapt : ∀ r1 ∈ rcaps.codecs, ∀ r2 ∈ rcaps.codecs, isRtxName r1.name = true →
      isRtxName r2.name = true →
      mapGet r1.parameters "apt" ≠ some (PVal.num r2.preferredPayloadType))
    (h : getLocalCapabilities fuel lcaps rcaps = some caps) :
    caps.codecs = negotiatedPrimaries lcaps.codecs rcaps.codecs
        ++ rtxAppendix (remoteRtxMap rcaps.codecs) (negotiatedPrimaries lcaps.codecs rcaps.codecs) ∧
    ∀ e ∈ rtxAppendix (remoteRtxMap rcaps.codecs) (negotiatedPrimaries lcaps.codecs rcaps.codecs),
      ∃ c ∈ negotiatedPrimaries lcaps.codecs rcaps.codecs,
        isRtxName c.name = false ∧
        e.name = "rtx" ∧ e.clockRate = c.clockRate ∧ e.kind = c.kind ∧
        mapGet (remoteRtxMap rcaps.codecs) (some (PVal.num c.preferredPayloadType))
          = some e.preferredPayloadType ∧
        mapGet e.parameters "apt" = some (PVal.num c.preferredPayloadType) ∧
        ∀ c' ∈ negotiatedPrimaries lcaps.codecs rcaps.codecs,
          c'.preferredPayloadType = c.preferredPayloadType → c' = c := by
  have hPfire : ∀ c ∈ negotiatedPrimaries lcaps.codecs rcaps.codecs, ∀ rtxPt : Int,
      mapGet (remoteRtxMap rcaps.codecs) (some (PVal.num c.preferredPayloadType)) = some rtxPt →
      mapGet (remoteRtxMap rcaps.codecs) (some (PVal.num rtxPt)) = none := by
    intro c hc rtxPt hfire
    cases hw : mapGet (remoteRtxMap rcaps.codecs) (some (PVal.num rtxPt)) with
    | none => rfl
    | some w =>
      exfalso
      obtain ⟨rc2, hrc2, hrtx2, hq2⟩ := remoteRtxMap_mem _ _ (mem_of_mapGet_eq_some hfire)
      obtain ⟨rc1, hrc1, hrtx1, hq1⟩ := remoteRtxMap_mem _ _ (mem_of_mapGet_eq_some hw)
      have h2 : rtxPt = rc2.preferredPayloadType := congrArg Prod.snd hq2
      have h1 : (some (PVal.num rtxPt) : Option PVal) = mapGet rc1.parameters "apt" :=
        congrArg Prod.fst hq1
      exact hapt rc1 hrc1 rc2 hrc2 hrtx1 hrtx2 (by rw [← h1, h2])
  constructor
  · rw [getLocalCapabilities] at h
    simp only [codecFold_eq lcaps.codecs rcaps.codecs [] []] at h
    split at h
    · exact absurd h (by simp)
    · next out hout =>
      cases h
      show out = _
      simp only [List.nil_append] at hout
      refine rtxLoop_spec (remoteRtxMap rcaps.codecs) fuel
        (negotiatedPrimaries lcaps.codecs rcaps.codecs) [] 0 out (Nat.zero_le _)
        (by simp [rtxAppendix]) (by simp) hPfire ?_
      rw [List.append_nil]
      exact hout
  · intro e he
    obtain ⟨c, hc, hmap⟩ := List.mem_filterMap.mp he
    obtain ⟨rtxPt, hfire, hek⟩ := Option.map_eq_some'.mp hmap
    subst hek
    refine ⟨c, hc, negotiatedPrimaries_not_rtx _ _ c hc, rfl, rfl, rfl, hfire, by
      simp [mkRtxCodec, mapGet], ?_⟩
    intro c' hc' hpteq
    have hnd : ((negotiatedPrimaries lcaps.codecs rcaps.codecs).map
        (·.preferredPayloadType)).Nodup :=
      (negotiatedPrimaries_pts_sublist lcaps.codecs rcaps.codecs).nodup hpt
    exact List.inj_on_of_nodup_map hnd hc' hc hpteq

/-- Witness for C1's amended theorem at the specification's VP8/RTX
scenario. -/
theorem rtx_synthesis_witness :
    capsVp8Rtx.codecs = negotiatedPrimaries [localVp8] [remoteVp8, remoteRtx97]
        ++ rtxAppendix (remoteRtxMap [remoteVp8, remoteRtx97])
             (negotiatedPrimaries [localVp8] [remoteVp8, remoteRtx97]) :=
  (rtx_synthesis 5 { codecs := [localVp8] } { codecs := [remoteVp8, remoteRtx97] } capsVp8Rtx
    (by decide) (by decide) (by decide)).1

/-! ## Flattened view of the codec-registry processing -/

/-- One step of the codec registry of `extractCapabilities`, flattening
the three per-section loops (registration, format parameters, feedback)
into a single processing sequence. -/
inductive COp where
  | reg (kind : String) (r : RtpEntry)
  | fm (f : FmtpEntry)
  | fb (b : RtcpFbEntry)
deriving DecidableEq, Repr

/-- Effect of one flattened operation on the codec registry. -/
def opStep (cm : List (Int × CodecCapability)) : COp → List (Int × CodecCapability)
  | .reg k r => mapSet cm r.payload (mkCodec k r)
  | .fm f =>
    match mapGet cm f.payload with
    | none => cm
    | some c => mapSet cm f.payload { c with parameters := f.config }
  | .fb b =>
    match mapGet cm b.payload with
    | none => cm
    | some c => mapSet cm b.payload { c with rtcpFeedback := c.rtcpFeedback ++ [mkFeedback b] }

/-- The flattened operations of one media section, in processing order. -/
def sectionOps (m : MediaSection) : List COp :=
  m.rtp.map (COp.reg m.type) ++ m.fmtp.map COp.fm ++ m.rtcpFb.map COp.fb

/-- The flattened operations of the whole document, in processing order
(non-audio/video sections contribute nothing). -/
def capOps (sdpObject : SdpObject) : List COp :=
  (sdpObject.media.filter isAV).flatMap sectionOps

/-- The header-extension entries of the whole document, in processing
order. -/
def extPairs (sdpObject : SdpObject) : List HeaderExtension :=
  (sdpObject.media.filter isAV).flatMap (fun m =>
    m.ext.map (fun e => { kind := m.type, uri := e.uri, preferredId := e.value }))

theorem capSection_codecs (st : CapState) (m : MediaSection) :
    (capSection st m).codecsMap
      = if isAV m then (sectionOps m).foldl opStep st.codecsMap else st.codecsMap := by
  by_cases hm : isAV m
  · simp only [capSection, hm, if_true, sectionOps, List.foldl_append, List.foldl_map]
    rfl
  · simp [capSection, hm]

theorem capSection_hes (st : CapState) (m : MediaSection) :
    (capSection st m).headerExtensions
      = if isAV m then
          (m.ext.map (fun e =>
            ({ kind := m.type, uri := e.uri, preferredId := e.value } : HeaderExtension))).foldl
            extDedupStep st.headerExtensions
        else st.headerExtensions := by
  by_cases hm : isAV m
  · simp only [capSection, hm, if_true, List.foldl_map]
  · simp [capSection, hm]

theorem capFold_codecs (ms : List MediaSection) :
    ∀ st : CapState, (ms.foldl capSection st).codecsMap
      = ((ms.filter isAV).flatMap sectionOps).foldl opStep st.codecsMap := by
  induction ms with
  | nil =>
    intro st
    simp
  | cons m t ih =>
    intro st
    rw [List.foldl_cons, ih]
    by_cases hm : isAV m
    · rw [List.filter_cons_of_pos hm, List.flatMap_cons, List.foldl_append]
      rw [capSection_codecs, if_pos hm]
    · rw [List.filter_cons_of_neg (by simp [hm]), capSection_codecs, if_neg hm]

theorem capFold_hes (ms : List MediaSection) :
    ∀ st : CapState, (ms.foldl capSection st).headerExtensions
      = ((ms.filter isAV).flatMap (fun m =>
          m.ext.map (fun e =>
            ({ kind := m.type, uri := e.uri, preferredId := e.value } : HeaderExtension)))).foldl
          extDedupStep st.headerExtensions := by
  induction ms with
  | nil =>
    intro st
    simp
  | cons m t ih =>
    intro st
    rw [List.foldl_cons, ih]
    by_cases hm : isAV m
    · rw [List.filter_cons_of_pos hm, List.flatMap_cons, List.foldl_append]
      rw [capSection_hes, if_pos hm]
    · rw [List.filter_cons_of_neg (by simp [hm]), capSection_hes, if_neg hm]

theorem extractCapabilities_codecs (sdpObject : SdpObject) :
    ∃ cm, extractCapabilities sdpObject
        = { codecs := cm.map (·.2), fecMechanisms := []
          , headerExtensions := (extPairs sdpObject).foldl extDedupStep [] } ∧
      cm = (capOps sdpObject).foldl opStep [] := by
  refine ⟨(capOps sdpObject).foldl opStep [], ?_, rfl⟩
  rw [extractCapabilities]
  rw [show (sdpObject.media.foldl capSection
      { codecsMap := [], headerExtensions := [] }).codecsMap
    = (capOps sdpObject).foldl opStep [] from capFold_codecs sdpObject.media _]
  rw [show (sdpObject.media.foldl capSection
      { codecsMap := [], headerExtensions := [] }).headerExtensions
    = (extPairs sdpObject).foldl extDedupStep [] from capFold_hes sdpObject.media _]

/-! ## Per-payload-type characterization of the codec registry -/

/-- The payload type an operation addresses. -/
def opKey : COp → Int
  | .reg _ r => r.payload
  | .fm f => f.payload
  | .fb b => b.payload

/-- Effect of one flattened operation on the codec registered at one
payload type `p`. -/
def valStep (p : Int) (acc : Option CodecCapability) (op : COp) : Option CodecCapability :=
  if opKey op = p then
    match op, acc with
    | .reg k r, _ => some (mkCodec k r)
    | .fm f, some c => some { c with parameters := f.config }
    | .fm _, none => none
    | .fb b, some c => some { c with rtcpFeedback := c.rtcpFeedback ++ [mkFeedback b] }
    | .fb _, none => none
  else acc

theorem mapGet_opStep (cm : List (Int × CodecCapability)) (op : COp) (p : Int) :
    mapGet (opStep cm op) p = valStep p (mapGet cm p) op := by
  cases op with
  | reg k r =>
    rw [show opStep cm (COp.reg k r) = mapSet cm r.payload (mkCodec k r) from rfl, mapGet_mapSet]
    by_cases hk : r.payload = p <;> simp [valStep, opKey, hk]
  | fm f =>
    by_cases hk : f.payload = p
    · subst hk
      cases hg : mapGet cm f.payload with
      | none => simp [opStep, hg, valStep, opKey]
      | some c => simp [opStep, hg, valStep, opKey, mapGet_mapSet]
    · cases hg : mapGet cm f.payload with
      | none => simp [opStep, hg, valStep, opKey, hk]
      | some c => simp [opStep, hg, valStep, opKey, hk, mapGet_mapSet]
  | fb b =>
    by_cases hk : b.payload = p
    · subst hk
      cases hg : mapGet cm b.payload with
      | none => simp [opStep, hg, valStep, opKey]
      | some c => simp [opStep, hg, valStep, opKey, mapGet_mapSet]
    · cases hg : mapGet cm b.payload with
      | none => simp [opStep, hg, valStep, opKey, hk]
      | some c => simp [opStep, hg, valStep, opKey, hk, mapGet_mapSet]

theorem mapGet_foldl_opStep (l : List COp) :
    ∀ (cm : List (Int × CodecCapability)) (p : Int),
    mapGet (l.foldl opStep cm) p = l.foldl (valStep p) (mapGet cm p) := by
  induction l with
  | nil =>
    intro cm p
    rfl
  | cons op t ih =>
    intro cm p
    rw [List.foldl_cons, List.foldl_cons, ih, mapGet_opStep]

/-- Specification-side state for one payload type: the last registration
seen (if any), the current parameters, and the accumulated feedback. -/
def specStep (p : Int)
    (st : Option (String × RtpEntry) × List (String × PVal) × List RtcpFeedback) :
    COp → Option (String × RtpEntry) × List (String × PVal) × List RtcpFeedback
  | .reg k r => if r.payload = p then (some (k, r), [], []) else st
  | .fm f =>
    if f.payload = p then
      match st.1 with
      | none => st
      | some _ => (st.1, f.config, st.2.2)
    else st
  | .fb b =>
    if b.payload = p then
      match st.1 with
      | none => st
      | some _ => (st.1, st.2.1, st.2.2 ++ [mkFeedback b])
    else st

/-- Specification-side view of the codec registered at payload type `p`
after a sequence of operations. -/
def specFold (p : Int) (l : List COp) :
    Option (String × RtpEntry) × List (String × PVal) × List RtcpFeedback :=
  l.foldl (specStep p) (none, [], [])

/-- The registration-determined fields of a codec capability (everything
except the parameters and the feedback). -/
def regFields (c : CodecCapability) : Int × String × String × String × Option Int × Int :=
  (c.clockRate, c.kind, c.mimeType, c.name, c.numChannels, c.preferredPayloadType)

/-- The fields determined by a registration entry. -/
def regFieldsOf (kr : String × RtpEntry) : Int × String × String × String × Option Int × Int :=
  (kr.2.rate, kr.1, kr.1 ++ "/" ++ kr.2.codec, kr.2.codec,
    some (jsOrInt kr.2.encoding 1), kr.2.payload)

/-- Relation between the registry value at `p` and the specification-side
state. -/
def SpecInv (acc : Option CodecCapability)
    (st : Option (String × RtpEntry) × List (String × PVal) × List RtcpFeedback) : Prop :=
  (acc = none ↔ st.1 = none) ∧
  (∀ c, acc = some c → ∃ kr, st.1 = some kr ∧ regFields c = regFieldsOf kr ∧
    c.parameters = st.2.1 ∧ c.rtcpFeedback = st.2.2)

theorem specInv_step (p : Int) (acc : Option CodecCapability)
    (st : Option (String × RtpEntry) × List (String × PVal) × List RtcpFeedback)
    (op : COp) (h : SpecInv acc st) : SpecInv (valStep p acc op) (specStep p st op) := by
  obtain ⟨h1, h2⟩ := h
  cases op with
  | reg k r =>
    by_cases hk : r.payload = p
    · constructor
      · simp [valStep, specStep, opKey, hk]
      · intro c hc
        simp only [valStep, opKey, hk, if_pos, Option.some.injEq] at hc
        refine ⟨(k, r), by simp [specStep, hk], ?_, ?_, ?_⟩ <;>
          simp [← hc, specStep, hk, mkCodec, regFields, regFieldsOf]
    · constructor
      · simpa [valStep, specStep, opKey, hk] using h1
      · intro c hc
        rw [valStep.eq_def] at hc
        rw [if_neg (by simpa [opKey] using hk)] at hc
        simpa [specStep, hk] using h2 c hc
  | fm f =>
    by_cases hk : f.payload = p
    · cases hacc : acc with
      | none =>
        have hst : st.1 = none := h1.mp hacc
        constructor
        · simp [valStep, specStep, opKey, hk, hacc, hst]
        · intro c hc
          rw [valStep.eq_def] at hc
          rw [if_pos (by simpa [opKey] using hk)] at hc
          simp [hacc] at hc
      | some c0 =>
        obtain ⟨kr, hkr, hrf, hps, hfb⟩ := h2 c0 hacc
        constructor
        · simp [valStep, specStep, opKey, hk, hacc, hkr]
        · intro c hc
          rw [valStep.eq_def] at hc
          rw [if_pos (by simpa [opKey] using hk)] at hc
          simp only [hacc, Option.some.injEq] at hc
          refine ⟨kr, by simp [specStep, hk, hkr], ?_, ?_, ?_⟩ <;>
            simp [← hc, specStep, hk, hkr, regFields, regFieldsOf] <;>
            simp_all [regFields, regFieldsOf]
    · constructor
      · simpa [valStep, specStep, opKey, hk] using h1
      · intro c hc
        rw [valStep.eq_def] at hc
        rw [if_neg (by simpa [opKey] using hk)] at hc
        simpa [specStep, hk] using h2 c hc
  | fb b =>
    by_cases hk : b.payload = p
    · cases hacc : acc with
      | none =>
        have hst : st.1 = none := h1.mp hacc
        constructor
        · simp [valStep, specStep, opKey, hk, hacc, hst]
        · intro c hc
          rw [valStep.eq_def] at hc
          rw [if_pos (by simpa [opKey] using hk)] at hc
          simp [hacc] at hc
      | some c0 =>
        obtain ⟨kr, hkr, hrf, hps, hfb⟩ := h2 c0 hacc
        constructor
        · simp [valStep, specStep, opKey, hk, hacc, hkr]
        · intro c hc
          rw [valStep.eq_def] at hc
          rw [if_pos (by simpa [opKey] using hk)] at hc
          simp only [hacc, Option.some.injEq] at hc
          refine ⟨kr, by simp [specStep, hk, hkr], ?_, ?_, ?_⟩ <;>
            simp [← hc, specStep, hk, hkr, regFields, regFieldsOf] <;>
            simp_all [regFields, regFieldsOf]
    · constructor
      · simpa [valStep, specStep, opKey, hk] using h1
      · intro c hc
        rw [valStep.eq_def] at hc
        rw [if_neg (by simpa [opKey] using hk)] at hc
        simpa [specStep, hk] using h2 c hc

theorem specInv_foldl (p : Int) (l : List COp) :
    ∀ acc st, SpecInv acc st →
      SpecInv (l.foldl (valStep p) acc) (l.foldl (specStep p) st) := by
  induction l with
  | nil =>
    intro acc st h
    exact h
  | cons op t ih =>
    intro acc st h
    rw [List.foldl_cons, List.foldl_cons]
    exact ih _ _ (specInv_step p acc st op h)

/-! ## Last registration and key order -/

/-- Step keeping track of the last registration for payload type `p`. -/
def lastRegStep (p : Int) (acc : Option (String × RtpEntry)) : COp → Option (String × RtpEntry)
  | .reg k r => if r.payload = p then some (k, r) else acc
  | _ => acc

/-- The registration entries of the document: the section kind paired
with each `a=rtpmap` entry, across all audio/video sections in order. -/
def regEntries (sdpObject : SdpObject) : List (String × RtpEntry) :=
  (sdpObject.media.filter isAV).flatMap (fun m => m.rtp.map (fun r => (m.type, r)))

/-- Step keeping the last registration entry with payload type `p`. -/
def lastRegEStep (p : Int) (acc : Option (String × RtpEntry)) (kr : String × RtpEntry) :
    Option (String × RtpEntry) :=
  if kr.2.payload = p then some kr else acc

/-- The last registration entry with payload type `p` (last-write-wins). -/
def lastRegE (p : Int) (l : List (String × RtpEntry)) : Option (String × RtpEntry) :=
  l.foldl (lastRegEStep p) none

theorem specFold_fst (p : Int) (l : List COp) :
    ∀ st, (l.foldl (specStep p) st).1 = l.foldl (lastRegStep p) st.1 := by
  induction l with
  | nil =>
    intro st
    rfl
  | cons op t ih =>
    intro st
    rw [List.foldl_cons, List.foldl_cons, ih]
    congr 1
    cases op with
    | reg k r =>
      by_cases hk : r.payload = p <;> simp [specStep, lastRegStep, hk]
    | fm f =>
      by_cases hk : f.payload = p
      · cases hst : st.1 <;> simp [specStep, lastRegStep, hk, hst]
      · simp [specStep, lastRegStep, hk]
    | fb b =>
      by_cases hk : b.payload = p
      · cases hst : st.1 <;> simp [specStep, lastRegStep, hk, hst]
      · simp [specStep, lastRegStep, hk]

theorem lastRegStep_fm_fold (p : Int) (l : List FmtpEntry) :
    ∀ a, l.foldl (fun acc f => lastRegStep p acc (COp.fm f)) a = a := by
  induction l with
  | nil => intro a; rfl
  | cons f t ih =>
    intro a
    rw [List.foldl_cons]
    exact ih a

theorem lastRegStep_fb_fold (p : Int) (l : List RtcpFbEntry) :
    ∀ a, l.foldl (fun acc b => lastRegStep p acc (COp.fb b)) a = a := by
  induction l with
  | nil => intro a; rfl
  | cons f t ih =>
    intro a
    rw [List.foldl_cons]
    exact ih a

theorem lastReg_sectionOps (p : Int) (m : MediaSection) (a : Option (String × RtpEntry)) :
    (sectionOps m).foldl (lastRegStep p) a
      = (m.rtp.map (fun r => (m.type, r))).foldl (lastRegEStep p) a := by
  rw [sectionOps, List.foldl_append, List.foldl_append, List.foldl_map, List.foldl_map,
    List.foldl_map, lastRegStep_fm_fold, lastRegStep_fb_fold, List.foldl_map]
  rfl

theorem lastReg_flatMap (p : Int) (ms : List MediaSection) :
    ∀ a, (ms.flatMap sectionOps).foldl (lastRegStep p) a
      = (ms.flatMap (fun m => m.rtp.map (fun r => (m.type, r)))).foldl (lastRegEStep p) a := by
  induction ms with
  | nil => intro a; rfl
  | cons m t ih =>
    intro a
    rw [List.flatMap_cons, List.flatMap_cons, List.foldl_append, List.foldl_append,
      lastReg_sectionOps, ih]

/-- The flattened last registration agrees with the document-level one. -/
theorem lastReg_capOps (p : Int) (sdpObject : SdpObject) :
    (capOps sdpObject).foldl (lastRegStep p) none = lastRegE p (regEntries sdpObject) := by
  rw [capOps, regEntries, lastRegE, lastReg_flatMap]

theorem lastRegE_payload_aux (p : Int) (l : List (String × RtpEntry)) :
    ∀ a, (∀ kr, a = some kr → kr.2.payload = p) →
    ∀ kr, l.foldl (lastRegEStep p) a = some kr → kr.2.payload = p := by
  induction l with
  | nil =>
    intro a ha kr h
    exact ha kr h
  | cons x t ih =>
    intro a ha kr h
    rw [List.foldl_cons] at h
    refine ih _ ?_ kr h
    intro kr' hkr'
    rw [lastRegEStep] at hkr'
    split at hkr'
    · next hx =>
      cases hkr'
      exact hx
    · exact ha kr' hkr'

theorem lastRegE_payload (p : Int) (l : List (String × RtpEntry)) (kr : String × RtpEntry)
    (h : lastRegE p l = some kr) : kr.2.payload = p :=
  lastRegE_payload_aux p l none (by intro kr' h'; cases h') kr h

/-- The payload type of a registration operation. -/
def regPayloadOf : COp → Option Int
  | .reg _ r => some r.payload
  | _ => none

/-- The payload types addressed by the registration operations. -/
def regPayloads (l : List COp) : List Int :=
  l.filterMap regPayloadOf

/-- First-occurrence deduplication with an already-seen set. -/
def dedupFirstAux (seen : List Int) : List Int → List Int
  | [] => []
  | x :: t => if x ∈ seen then dedupFirstAux seen t else x :: dedupFirstAux (x :: seen) t

/-- First-occurrence deduplication of a list. -/
def dedupFirst (l : List Int) : List Int :=
  dedupFirstAux [] l

theorem keys_opStep_fm (cm : List (Int × CodecCapability)) (f : FmtpEntry) :
    (opStep cm (COp.fm f)).map Prod.fst = cm.map Prod.fst := by
  rw [opStep]
  cases hg : mapGet cm f.payload with
  | none => rfl
  | some c =>
    exact keys_mapSet_of_mem _ ((mapGet_isSome_iff cm f.payload).mp (by simp [hg]))

theorem keys_opStep_fb (cm : List (Int × CodecCapability)) (b : RtcpFbEntry) :
    (opStep cm (COp.fb b)).map Prod.fst = cm.map Prod.fst := by
  rw [opStep]
  cases hg : mapGet cm b.payload with
  | none => rfl
  | some c =>
    exact keys_mapSet_of_mem _ ((mapGet_isSome_iff cm b.payload).mp (by simp [hg]))

theorem keys_foldl_opStep (l : List COp) :
    ∀ (cm : List (Int × CodecCapability)) (seen : List Int),
    (∀ k, k ∈ seen ↔ k ∈ cm.map Prod.fst) →
    (l.foldl opStep cm).map Prod.fst = cm.map Prod.fst ++ dedupFirstAux seen (regPayloads l) := by
  induction l with
  | nil =>
    intro cm seen hseen
    simp [regPayloads, dedupFirstAux]
  | cons op t ih =>
    intro cm seen hseen
    rw [List.foldl_cons]
    cases op with
    | reg k r =>
      rw [show regPayloads (COp.reg k r :: t) = r.payload :: regPayloads t from rfl,
        dedupFirstAux]
      by_cases hmem : r.payload ∈ seen
      · rw [if_pos hmem]
        have hkeys : (opStep cm (COp.reg k r)).map Prod.fst = cm.map Prod.fst :=
          keys_mapSet_of_mem _ ((hseen _).mp hmem)
        rw [ih _ seen (fun k' => by rw [hkeys]; exact hseen k'), hkeys]
      · rw [if_neg hmem]
        have hkeys : (opStep cm (COp.reg k r)).map Prod.fst
            = cm.map Prod.fst ++ [r.payload] :=
          keys_mapSet_of_not_mem _ (fun hmm => hmem ((hseen _).mpr hmm))
        rw [ih _ (r.payload :: seen) (fun k' => by
          rw [hkeys]
          simp only [List.mem_cons, List.mem_append, List.mem_singleton]
          rw [hseen k']
          tauto), hkeys]
        simp
    | fm f =>
      rw [show regPayloads (COp.fm f :: t) = regPayloads t from rfl]
      rw [ih _ seen (fun k' => by rw [keys_opStep_fm]; exact hseen k'), keys_opStep_fm]
    | fb b =>
      rw [show regPayloads (COp.fb b :: t) = regPayloads t from rfl]
      rw [ih _ seen (fun k' => by rw [keys_opStep_fb]; exact hseen k'), keys_opStep_fb]

theorem nodup_keys_foldl_opStep (l : List COp) :
    ∀ cm, ((cm.map Prod.fst : List Int)).Nodup → ((l.foldl opStep cm).map Prod.fst).Nodup := by
  induction l with
  | nil =>
    intro cm h
    exact h
  | cons op t ih =>
    intro cm h
    rw [List.foldl_cons]
    refine ih _ ?_
    cases op with
    | reg k r => exact nodup_keys_mapSet _ _ h
    | fm f =>
      rw [keys_opStep_fm]
      exact h
    | fb b =>
      rw [keys_opStep_fb]
      exact h

theorem mapGet_of_mem_nodup {α β : Type} [DecidableEq α] {m : List (α × β)}
    (hnd : (m.map Prod.fst).Nodup) {p : α} {c : β} (h : (p, c) ∈ m) : mapGet m p = some c := by
  induction m with
  | nil => simp at h
  | cons q t ih =>
    rw [List.map_cons, List.nodup_cons] at hnd
    rcases List.mem_cons.mp h with h | h
    · rw [← h, mapGet, if_pos rfl]
    · rw [mapGet]
      have hp : q.1 ≠ p := by
        intro he
        exact hnd.1 (he ▸ List.mem_map.mpr ⟨(p, c), h, rfl⟩)
      rw [if_neg hp]
      exact ih hnd.2 h

theorem regPayloadOf_fm_filterMap (l : List FmtpEntry) :
    (l.map COp.fm).filterMap regPayloadOf = [] := by
  induction l with
  | nil => rfl
  | cons f t ih =>
    rw [List.map_cons, List.filterMap_cons]
    simp [regPayloadOf, ih]

theorem regPayloadOf_fb_filterMap (l : List RtcpFbEntry) :
    (l.map COp.fb).filterMap regPayloadOf = [] := by
  induction l with
  | nil => rfl
  | cons b t ih =>
    rw [List.map_cons, List.filterMap_cons]
    simp [regPayloadOf, ih]

theorem regPayloadOf_reg_filterMap (k : String) (l : List RtpEntry) :
    (l.map (COp.reg k)).filterMap regPayloadOf = l.map (fun r => r.payload) := by
  induction l with
  | nil => rfl
  | cons r t ih =>
    rw [List.map_cons, List.filterMap_cons, List.map_cons]
    simp [regPayloadOf, ih]

theorem regPayloads_sectionOps (m : MediaSection) :
    regPayloads (sectionOps m) = m.rtp.map (fun r => r.payload) := by
  rw [sectionOps, regPayloads, List.filterMap_append, List.filterMap_append,
    regPayloadOf_reg_filterMap, regPayloadOf_fm_filterMap, regPayloadOf_fb_filterMap]
  simp

/-- The registration payload types of the flattened operations are exactly
the payload types of the document's registration entries. -/
theorem regPayloads_capOps (sdpObject : SdpObject) :
    regPayloads (capOps sdpObject) = (regEntries sdpObject).map (fun kr => kr.2.payload) := by
  rw [capOps, regEntries]
  generalize (sdpObject.media.filter isAV) = ms
  induction ms with
  | nil => rfl
  | cons m t ih =>
    rw [List.flatMap_cons, List.flatMap_cons, regPayloads, List.filterMap_append,
      List.map_append]
    rw [show List.filterMap regPayloadOf (sectionOps m) = regPayloads (sectionOps m) from rfl]
    rw [show List.filterMap regPayloadOf (t.flatMap sectionOps)
      = regPayloads (t.flatMap sectionOps) from rfl]
    rw [regPayloads_sectionOps, ih, List.map_map]
    rfl

/-- Central characterization of one registry entry: its payload type is
its key, its registration fields come from the last registration of that
payload type anywhere in the document, and its parameters and feedback
are the ones attached by the flattened operation sequence. -/
theorem codec_registry_char (sdp : SdpObject) (p : Int) (c : CodecCapability)
    (hmem : (p, c) ∈ (capOps sdp).foldl opStep []) :
    c.preferredPayloadType = p ∧
    ∃ kr, lastRegE p (regEntries sdp) = some kr ∧ regFields c = regFieldsOf kr ∧
      c.parameters = (specFold p (capOps sdp)).2.1 ∧
      c.rtcpFeedback = (specFold p (capOps sdp)).2.2 := by
  have hnd : ((((capOps sdp).foldl opStep []).map Prod.fst : List Int)).Nodup :=
    nodup_keys_foldl_opStep _ [] (by simp)
  have hget : mapGet ((capOps sdp).foldl opStep []) p = some c := mapGet_of_mem_nodup hnd hmem
  rw [mapGet_foldl_opStep] at hget
  have hinv := specInv_foldl p (capOps sdp) none (none, [], [])
    ⟨by simp, by intro c' hc'; cases hc'⟩
  obtain ⟨kr, hkr, hrf, hps, hfb⟩ := hinv.2 c (by simpa using hget)
  have hlast : (specFold p (capOps sdp)).1 = lastRegE p (regEntries sdp) := by
    rw [specFold, specFold_fst]
    exact lastReg_capOps p sdp
  have hkr' : lastRegE p (regEntries sdp) = some kr := by
    rw [← hlast]
    exact hkr
  have hppt : kr.2.payload = p := lastRegE_payload _ _ _ hkr'
  have hcpt : c.preferredPayloadType = p := by
    have h6 := congrArg (fun t => t.2.2.2.2.2) hrf
    simpa [regFields, regFieldsOf, hppt] using h6
  exact ⟨hcpt, kr, hkr', hrf, hps, hfb⟩

theorem codecs_pts_eq_keys (sdp : SdpObject) :
    ((capOps sdp).foldl opStep []).map (fun q => q.2.preferredPayloadType)
      = ((capOps sdp).foldl opStep []).map Prod.fst := by
  refine List.map_congr_left ?_
  intro q hq
  exact (codec_registry_char sdp q.1 q.2 (by simpa using hq)).1

/-! ## C5: distinct payload types, last registration wins -/

/-- **C5**: for every document with an audio or video section, the
extracted codecs carry pairwise distinct preferred payload types, and
each codec's registration fields come from the *last* `a=rtpmap` entry
with that payload type (a later entry with an already-seen payload type
replaces the earlier one). -/
theorem payload_types_distinct (sdp : SdpObject)
    (h : ∃ m ∈ sdp.media, isAV m = true) :
    ((extractCapabilities sdp).codecs.map (·.preferredPayloadType)).Nodup ∧
    ∀ c ∈ (extractCapabilities sdp).codecs,
      ∃ kr, lastRegE c.preferredPayloadType (regEntries sdp) = some kr ∧
        kr.2.payload = c.preferredPayloadType ∧
        c.name = kr.2.codec ∧ c.clockRate = kr.2.rate ∧ c.kind = kr.1 ∧
        c.mimeType = kr.1 ++ "/" ++ kr.2.codec ∧
        c.numChannels = some (jsOrInt kr.2.encoding 1) := by
  obtain ⟨cm, hcap, hcm⟩ := extractCapabilities_codecs sdp
  subst hcm
  constructor
  · rw [hcap]
    show ((((capOps sdp).foldl opStep []).map (fun q => q.2)).map
      (·.preferredPayloadType)).Nodup
    rw [List.map_map]
    rw [show ((fun c : CodecCapability => c.preferredPayloadType) ∘ (fun q :
        Int × CodecCapability => q.2)) = fun q : Int × CodecCapability =>
        q.2.preferredPayloadType from rfl]
    rw [codecs_pts_eq_keys]
    exact nodup_keys_foldl_opStep _ [] (by simp)
  · intro c hc
    rw [hcap] at hc
    obtain ⟨⟨p, c'⟩, hq, hq2⟩ := List.mem_map.mp hc
    dsimp at hq2
    subst hq2
    obtain ⟨hcpt, kr, hkr, hrf, -, -⟩ := codec_registry_char sdp p c' hq
    rw [regFields, regFieldsOf] at hrf
    simp only [Prod.mk.injEq] at hrf
    obtain ⟨h1, h2, h3, h4, h5, h6⟩ := hrf
    rw [hcpt]
    exact ⟨kr, hkr, lastRegE_payload _ _ _ hkr, h4, h1, h2, h3, h5⟩

/-- Two `a=rtpmap` entries with the same payload type 96; the second one
wins. -/
def dupPayloadDoc : SdpObject :=
  { media := [ { type := "audio"
               , rtp := [ { payload := 96, codec := "first", rate := 8000 }
                        , { payload := 96, codec := "second", rate := 16000 } ] } ] }

/-- Witness for C5 at a document with a duplicated payload type. -/
theorem payload_types_distinct_witness :
    ((extractCapabilities dupPayloadDoc).codecs.map (·.preferredPayloadType)).Nodup ∧
    (∃ kr, lastRegE (96 : Int) (regEntries dupPayloadDoc) = some kr ∧
      kr.2.payload = (96 : Int) ∧
      ("second" : String) = kr.2.codec ∧ (16000 : Int) = kr.2.rate ∧
      ("audio" : String) = kr.1 ∧
      ("audio/second" : String) = kr.1 ++ "/" ++ kr.2.codec ∧
      (some 1 : Option Int) = some (jsOrInt kr.2.encoding 1)) := by
  have h := payload_types_distinct dupPayloadDoc
    ⟨{ type := "audio"
     , rtp := [ { payload := 96, codec := "first", rate := 8000 }
              , { payload := 96, codec := "second", rate := 16000 } ] },
      List.mem_cons_self _ _, rfl⟩
  refine ⟨h.1, ?_⟩
  exact h.2 { clockRate := 16000, kind := "audio", mimeType := "audio/second"
            , name := "second", numChannels := some 1, parameters := []
            , preferredPayloadType := 96, rtcpFeedback := [] } (by decide)

/-! ## C10: the codec registry is shared across media sections -/

/-- **C10**: the output codec order is the first-registration order of
payload types across the whole document (re-registration in a later
section, even of the other kind, replaces the content but keeps the
original position), each codec's registration fields come from the last
registration of its payload type in any section, and its parameters and
feedback are the ones attached by format-parameter and feedback lines
processed anywhere after that registration — lines of one section attach
to a codec registered in another. -/
theorem shared_codec_registry (sdp : SdpObject) :
    (extractCapabilities sdp).codecs.map (·.preferredPayloadType)
      = dedupFirst ((regEntries sdp).map (fun kr => kr.2.payload)) ∧
    ∀ c ∈ (extractCapabilities sdp).codecs,
      ∃ kr, lastRegE c.preferredPayloadType (regEntries sdp) = some kr ∧
        regFields c = regFieldsOf kr ∧
        c.parameters = (specFold c.preferredPayloadType (capOps sdp)).2.1 ∧
        c.rtcpFeedback = (specFold c.preferredPayloadType (capOps sdp)).2.2 := by
  obtain ⟨cm, hcap, hcm⟩ := extractCapabilities_codecs sdp
  subst hcm
  constructor
  · rw [hcap]
    show (((capOps sdp).foldl opStep []).map (fun q => q.2)).map (·.preferredPayloadType)
      = dedupFirst ((regEntries sdp).map (fun kr => kr.2.payload))
    rw [List.map_map]
    rw [show ((fun c : CodecCapability => c.preferredPayloadType) ∘ (fun q :
        Int × CodecCapability => q.2)) = fun q : Int × CodecCapability =>
        q.2.preferredPayloadType from rfl]
    rw [codecs_pts_eq_keys, keys_foldl_opStep (capOps sdp) [] [] (by simp)]
    rw [← regPayloads_capOps]
    rfl
  · intro c hc
    rw [hcap] at hc
    obtain ⟨⟨p, c'⟩, hq, hq2⟩ := List.mem_map.mp hc
    dsimp at hq2
    subst hq2
    obtain ⟨hcpt, kr, hkr, hrf, hps, hfb⟩ := codec_registry_char sdp p c' hq
    rw [hcpt]
    exact ⟨kr, hkr, hrf, hps, hfb⟩

/-- Document exercising the shared registry: payload 96 is registered in
an audio section, re-registered in a video section, and a format
parameter line for it appears in yet another section. -/
def crossRegDoc : SdpObject :=
  { media := [ { type := "audio", rtp := [ { payload := 96, codec := "a", rate := 8000 } ] }
             , { type := "video", rtp := [ { payload := 96, codec := "b", rate := 90000 } ] }
             , { type := "audio"
               , fmtp := [ { payload := 96, config := [("x", PVal.num 1)] } ] } ] }

/-- The single codec `crossRegDoc` extracts: content from the video
re-registration, parameters attached by the third section's fmtp line. -/
def crossCodec : CodecCapability :=
  { clockRate := 90000, kind := "video", mimeType := "video/b", name := "b"
  , numChannels := some 1, parameters := [("x", PVal.num 1)]
  , preferredPayloadType := 96, rtcpFeedback := [] }

/-- Witness for C10 at `crossRegDoc`. -/
theorem shared_codec_registry_witness :
    (extractCapabilities crossRegDoc).codecs.map (·.preferredPayloadType)
      = dedupFirst ((regEntries crossRegDoc).map (fun kr => kr.2.payload)) ∧
    ∃ kr, lastRegE crossCodec.preferredPayloadType (regEntries crossRegDoc) = some kr ∧
      regFields crossCodec = regFieldsOf kr ∧
      crossCodec.parameters
        = (specFold crossCodec.preferredPayloadType (capOps crossRegDoc)).2.1 ∧
      crossCodec.rtcpFeedback
        = (specFold crossCodec.preferredPayloadType (capOps crossRegDoc)).2.2 :=
  ⟨(shared_codec_registry crossRegDoc).1,
    (shared_codec_registry crossRegDoc).2 crossCodec (by decide)⟩

/-! ## C6: header-extension deduplication -/

/-- The deduplication key of a header extension. -/
def extKey (he : HeaderExtension) : String × String := (he.kind, he.uri)

theorem extractCapabilities_hes (sdpObject : SdpObject) :
    (extractCapabilities sdpObject).headerExtensions
      = (extPairs sdpObject).foldl extDedupStep [] := by
  obtain ⟨cm, hcap, -⟩ := extractCapabilities_codecs sdpObject
  rw [hcap]

theorem extDedupStep_eq (hes : List HeaderExtension) (he : HeaderExtension) :
    extDedupStep hes he = if extKey he ∈ hes.map extKey then hes else hes ++ [he] := by
  by_cases hk : extKey he ∈ hes.map extKey
  · have hany : hes.any (fun saved => decide (he.kind = saved.kind ∧ he.uri = saved.uri))
        = true := by
      rw [List.any_eq_true]
      obtain ⟨s, hs, hks⟩ := List.mem_map.mp hk
      have h1 : s.kind = he.kind := congrArg Prod.fst hks
      have h2 : s.uri = he.uri := congrArg Prod.snd hks
      exact ⟨s, hs, by simp [h1, h2]⟩
    rw [extDedupStep, if_pos hany, if_pos hk]
  · have hany : hes.any (fun saved => decide (he.kind = saved.kind ∧ he.uri = saved.uri))
        = false := by
      rw [List.any_eq_false]
      rintro s hs hdec
      rw [decide_eq_true_eq] at hdec
      exact hk (List.mem_map.mpr ⟨s, hs, by simp [extKey, hdec.1, hdec.2]⟩)
    rw [extDedupStep, if_neg (by rw [hany]; simp), if_neg hk]

theorem extDedup_keys_nodup (l : List HeaderExtension) :
    ∀ acc : List HeaderExtension, (acc.map extKey).Nodup →
    ((l.foldl extDedupStep acc).map extKey).Nodup := by
  induction l with
  | nil =>
    intro acc h
    exact h
  | cons he t ih =>
    intro acc h
    rw [List.foldl_cons, extDedupStep_eq]
    by_cases hk : extKey he ∈ acc.map extKey
    · rw [if_pos hk]
      exact ih acc h
    · rw [if_neg hk]
      refine ih _ ?_
      rw [List.map_append]
      exact List.Nodup.append h (by simp) (by simpa using hk)

theorem extDedup_keys_mem (l : List HeaderExtension) :
    ∀ (acc : List HeaderExtension) (k : String × String),
    k ∈ (l.foldl extDedupStep acc).map extKey ↔ k ∈ acc.map extKey ∨ k ∈ l.map extKey := by
  induction l with
  | nil =>
    intro acc k
    simp
  | cons he t ih =>
    intro acc k
    rw [List.foldl_cons, extDedupStep_eq]
    by_cases hk : extKey he ∈ acc.map extKey
    · rw [if_pos hk, ih]
      simp only [List.map_cons, List.mem_cons]
      constructor
      · rintro (h | h)
        · exact Or.inl h
        · exact Or.inr (Or.inr h)
      · rintro (h | h | h)
        · exact Or.inl h
        · exact Or.inl (h ▸ hk)
        · exact Or.inr h
    · rw [if_neg hk, ih]
      rw [List.map_append]
      simp only [List.mem_append, List.mem_singleton, List.map_cons, List.mem_cons,
        List.map_cons]
      tauto

theorem extDedup_first (l : List HeaderExtension) :
    ∀ acc : List HeaderExtension, ∀ he ∈ l.foldl extDedupStep acc,
    he ∈ acc ∨ (extKey he ∉ acc.map extKey ∧
      l.find? (fun e => decide (extKey e = extKey he)) = some he) := by
  induction l with
  | nil =>
    intro acc he h
    exact Or.inl h
  | cons e t ih =>
    intro acc he h
    rw [List.foldl_cons, extDedupStep_eq] at h
    by_cases hk : extKey e ∈ acc.map extKey
    · rw [if_pos hk] at h
      rcases ih acc he h with h | ⟨hnot, hfind⟩
      · exact Or.inl h
      · have hne : ¬extKey e = extKey he := fun hh => hnot (hh ▸ hk)
        right
        refine ⟨hnot, ?_⟩
        rw [List.find?_cons_of_neg _ (by simp [hne]), hfind]
    · rw [if_neg hk] at h
      rcases ih _ he h with h | ⟨hnot, hfind⟩
      · rcases List.mem_append.mp h with h | h
        · exact Or.inl h
        · rcases List.mem_singleton.mp h with rfl
          right
          refine ⟨hk, ?_⟩
          rw [List.find?_cons_of_pos _ (by simp)]
      · rw [List.map_append] at hnot
        have h1 : extKey he ∉ acc.map extKey :=
          fun hh => hnot (List.mem_append.mpr (Or.inl hh))
        have h2 : ¬extKey e = extKey he :=
          fun hh => hnot (List.mem_append.mpr (Or.inr (by simp [hh])))
        right
        refine ⟨h1, ?_⟩
        rw [List.find?_cons_of_neg _ (by simp [h2]), hfind]

/-- Two documents whose only difference is the order of two duplicate
`(audio, "u")` extension entries carrying different preferred ids. -/
def extDoc1 : SdpObject :=
  { media := [ { type := "audio"
               , ext := [ { value := 1, uri := "u" }, { value := 2, uri := "u" } ] } ] }

/-- The reordering of `extDoc1`'s duplicate entries. -/
def extDoc2 : SdpObject :=
  { media := [ { type := "audio"
               , ext := [ { value := 2, uri := "u" }, { value := 1, uri := "u" } ] } ] }

/-- **C6, counterexample**: reordering duplicate `(kind, uri)` entries
that differ in their preferred id changes the extraction result — the
first-declared occurrence wins, so its `preferredId` changes. -/
theorem header_extension_reorder_counterexample :
    (extPairs extDoc2).Perm (extPairs extDoc1) ∧
    (extPairs extDoc2).map extKey = (extPairs extDoc1).map extKey ∧
    (extractCapabilities extDoc1).headerExtensions
      = [{ kind := "audio", uri := "u", preferredId := 1 }] ∧
    (extractCapabilities extDoc2).headerExtensions
      = [{ kind := "audio", uri := "u", preferredId := 2 }] ∧
    (extractCapabilities extDoc1).headerExtensions
      ≠ (extractCapabilities extDoc2).headerExtensions := by
  refine ⟨by decide, by decide, by decide, by decide, by decide⟩

/-- **C6, amended**: header-extension extraction returns exactly one entry
per distinct `(kind, uri)` pair of the input, equal to the first-declared
occurrence; and when all entries sharing a pair are identical records,
any reordering of the document's extension entries leaves the result
unchanged up to order. -/
theorem header_extension_dedup (sdp : SdpObject) :
    ((extractCapabilities sdp).headerExtensions.map extKey).Nodup ∧
    (∀ k, k ∈ (extractCapabilities sdp).headerExtensions.map extKey
      ↔ k ∈ (extPairs sdp).map extKey) ∧
    (∀ he ∈ (extractCapabilities sdp).headerExtensions,
      (extPairs sdp).find? (fun e => decide (extKey e = extKey he)) = some he) ∧
    (∀ sdp' : SdpObject,
      (∀ e1 ∈ extPairs sdp, ∀ e2 ∈ extPairs sdp, extKey e1 = extKey e2 → e1 = e2) →
      (extPairs sdp').Perm (extPairs sdp) →
      (extractCapabilities sdp').headerExtensions.Perm
        (extractCapabilities sdp).headerExtensions) := by
  have hfirst : ∀ t : SdpObject, ∀ he ∈ (extractCapabilities t).headerExtensions,
      (extPairs t).find? (fun e => decide (extKey e = extKey he)) = some he := by
    intro t he h
    rw [extractCapabilities_hes] at h
    rcases extDedup_first (extPairs t) [] he h with h | ⟨-, h⟩
    · simp at h
    · exact h
  have hmemP : ∀ t : SdpObject, ∀ he ∈ (extractCapabilities t).headerExtensions,
      he ∈ extPairs t := by
    intro t he h
    exact List.mem_of_find?_eq_some (hfirst t he h)
  have hnd : ∀ t : SdpObject, ((extractCapabilities t).headerExtensions.map extKey).Nodup := by
    intro t
    rw [extractCapabilities_hes]
    exact extDedup_keys_nodup _ [] (by simp)
  have hkeys : ∀ t : SdpObject, ∀ k, k ∈ (extractCapabilities t).headerExtensions.map extKey
      ↔ k ∈ (extPairs t).map extKey := by
    intro t k
    rw [extractCapabilities_hes, extDedup_keys_mem]
    simp
  refine ⟨hnd sdp, hkeys sdp, hfirst sdp, ?_⟩
  intro sdp' hdup hperm
  have hmem : ∀ he, he ∈ (extractCapabilities sdp').headerExtensions
      ↔ he ∈ (extractCapabilities sdp).headerExtensions := by
    have hstep : ∀ t t' : SdpObject, (extPairs t').Perm (extPairs t) →
        (∀ e1 ∈ extPairs t, ∀ e2 ∈ extPairs t, extKey e1 = extKey e2 → e1 = e2) →
        ∀ he, he ∈ (extractCapabilities t).headerExtensions →
          he ∈ (extractCapabilities t').headerExtensions := by
      intro t t' hp hd he h
      have hin : he ∈ extPairs t := hmemP t he h
      have hk' : extKey he ∈ (extPairs t').map extKey := by
        rw [(hp.map extKey).mem_iff]
        exact List.mem_map.mpr ⟨he, hin, rfl⟩
      obtain ⟨he', hhe', hkeq⟩ := List.mem_map.mp ((hkeys t' (extKey he)).mpr hk')
      have hin' : he' ∈ extPairs t := hp.mem_iff.mp (hmemP t' he' hhe')
      have : he' = he := hd he' hin' he hin hkeq
      rw [← this]
      exact hhe'
    intro he
    constructor
    · intro h
      refine hstep sdp' sdp ?_ ?_ he h
      · exact hperm.symm
      · intro e1 he1 e2 he2 hk
        exact hdup e1 (hperm.mem_iff.mp he1) e2 (hperm.mem_iff.mp he2) hk
    · intro h
      exact hstep sdp sdp' hperm hdup he h
  exact (List.perm_ext_iff_of_nodup (List.Nodup.of_map extKey (hnd sdp'))
    (List.Nodup.of_map extKey (hnd sdp))).mpr hmem

/-- A document with identical duplicate extension entries and one other
entry. -/
def extDocA : SdpObject :=
  { media := [ { type := "audio"
               , ext := [ { value := 5, uri := "u" }, { value := 5, uri := "u" }
                        , { value := 7, uri := "v" } ] } ] }

/-- A reordering of `extDocA`'s extension entries. -/
def extDocB : SdpObject :=
  { media := [ { type := "audio"
               , ext := [ { value := 7, uri := "v" }, { value := 5, uri := "u" }
                        , { value := 5, uri := "u" } ] } ] }

/-- Witness for C6's amended theorem: identical duplicates reordered give
the same extensions up to order. -/
theorem header_extension_dedup_witness :
    (extractCapabilities extDocB).headerExtensions.Perm
      (extractCapabilities extDocA).headerExtensions :=
  (header_extension_dedup extDocA).2.2.2 extDocB (by decide) (by decide)

/-! ## C7: retransmission SSRCs and track infos -/

/-- Invariant of the track-info state: keys match the stored `ssrc`,
no stored track's SSRC is marked as a retransmission SSRC, every stored
`rtxSsrc` is marked, and every side-map value is marked. -/
def TrackInv (st : TrackState) : Prop :=
  (∀ q ∈ st.infos, q.2.ssrc = q.1) ∧
  (∀ q ∈ st.infos, some q.1 ∉ st.rtxSet) ∧
  (∀ q ∈ st.infos, ∀ R : Int, q.2.rtxSsrc = some R → some R ∈ st.rtxSet) ∧
  (∀ s ∈ st.rtxMap, s.2 ∈ st.rtxSet)

theorem applyAttr_ssrc (info : TrackInfo) (a : SsrcEntry) :
    (applyAttr info a).ssrc = info.ssrc := by
  rw [applyAttr.eq_def]
  split <;> rfl

theorem applyAttr_rtxSsrc (info : TrackInfo) (a : SsrcEntry) :
    (applyAttr info a).rtxSsrc = info.rtxSsrc := by
  rw [applyAttr.eq_def]
  split <;> rfl

theorem trackGroupStep_infos (st : TrackState) (g : SsrcGroupEntry) :
    (trackGroupStep st g).infos = st.infos := by
  rw [trackGroupStep]
  split <;> rfl

theorem trackGroupFold_infos (gs : List SsrcGroupEntry) :
    ∀ st : TrackState, (gs.foldl trackGroupStep st).infos = st.infos := by
  induction gs with
  | nil =>
    intro st
    rfl
  | cons g t ih =>
    intro st
    rw [List.foldl_cons, ih, trackGroupStep_infos]

theorem trackGroupStep_rtxSet_mono (st : TrackState) (g : SsrcGroupEntry) :
    ∀ x ∈ st.rtxSet, x ∈ (trackGroupStep st g).rtxSet := by
  intro x hx
  rw [trackGroupStep]
  split
  · dsimp only
    split
    · exact hx
    · exact List.mem_append_left _ hx
  · exact hx

theorem trackGroupStep_rtxSet_mem (st : TrackState) (g : SsrcGroupEntry)
    (h : g.semantics = "FID") : groupRtxSsrc g ∈ (trackGroupStep st g).rtxSet := by
  rw [trackGroupStep, if_pos h]
  dsimp only
  split
  · next hmem => exact hmem
  · exact List.mem_append_right _ (List.mem_singleton.mpr rfl)

theorem trackGroupFold_rtxSet_mono (gs : List SsrcGroupEntry) :
    ∀ st : TrackState, ∀ x ∈ st.rtxSet, x ∈ (gs.foldl trackGroupStep st).rtxSet := by
  induction gs with
  | nil =>
    intro st x hx
    exact hx
  | cons g t ih =>
    intro st x hx
    rw [List.foldl_cons]
    exact ih _ x (trackGroupStep_rtxSet_mono st g x hx)

theorem trackGroupFold_rtxSet_mem (gs : List SsrcGroupEntry) :
    ∀ st : TrackState, ∀ g ∈ gs, g.semantics = "FID" →
    groupRtxSsrc g ∈ (gs.foldl trackGroupStep st).rtxSet := by
  induction gs with
  | nil =>
    intro st g hg
    simp at hg
  | cons g0 t ih =>
    intro st g hg hsem
    rw [List.foldl_cons]
    rcases List.mem_cons.mp hg with hg | hg
    · subst hg
      exact trackGroupFold_rtxSet_mono t _ _ (trackGroupStep_rtxSet_mem st g hsem)
    · exact ih _ g hg hsem

theorem trackGroupStep_inv (st : TrackState) (g : SsrcGroupEntry)
    (hInv : TrackInv st)
    (hFut : g.semantics = "FID" → ∀ R : Int, groupRtxSsrc g = some R →
      mapGet st.infos R = none) :
    TrackInv (trackGroupStep st g) := by
  obtain ⟨hA, hB, hC, hD⟩ := hInv
  by_cases hsem : g.semantics = "FID"
  · rw [trackGroupStep, if_pos hsem]
    have hnew : ∀ q ∈ st.infos, some q.1 ≠ groupRtxSsrc g := by
      intro q hq heq
      cases hR : groupRtxSsrc g with
      | none =>
        rw [hR] at heq
        cases heq
      | some R =>
        rw [hR] at heq
        cases heq
        have := hFut hsem q.1 hR
        have hmem : q.1 ∈ st.infos.map Prod.fst := List.mem_map.mpr ⟨q, hq, rfl⟩
        rw [← mapGet_isSome_iff] at hmem
        rw [this] at hmem
        cases hmem
    refine ⟨hA, ?_, ?_, ?_⟩
    · intro q hq
      dsimp only
      split
      · exact hB q hq
      · intro hin
        rcases List.mem_append.mp hin with hin | hin
        · exact hB q hq hin
        · exact hnew q hq (List.mem_singleton.mp hin)
    · intro q hq R hR
      dsimp only
      split
      · exact hC q hq R hR
      · exact List.mem_append_left _ (hC q hq R hR)
    · intro s hs
      dsimp only at hs ⊢
      rcases mem_mapSet_elim hs with hs | hs
      · split
        · exact hD s hs
        · exact List.mem_append_left _ (hD s hs)
      · rw [hs]
        split
        · next hmem => exact hmem
        · exact List.mem_append_right _ (List.mem_singleton.mpr rfl)
  · rw [trackGroupStep, if_neg hsem]
    exact ⟨hA, hB, hC, hD⟩

theorem trackGroupFold_inv (gs : List SsrcGroupEntry) :
    ∀ st : TrackState, TrackInv st →
    (∀ g ∈ gs, g.semantics = "FID" → ∀ R : Int, groupRtxSsrc g = some R →
      mapGet st.infos R = none) →
    TrackInv (gs.foldl trackGroupStep st) := by
  induction gs with
  | nil =>
    intro st h _
    exact h
  | cons g t ih =>
    intro st hInv hFut
    rw [List.foldl_cons]
    refine ih _ (trackGroupStep_inv st g hInv
      (fun hsem R hR => hFut g (List.mem_cons_self _ _) hsem R hR)) ?_
    intro g' hg' hsem R hR
    rw [trackGroupStep_infos]
    exact hFut g' (List.mem_cons_of_mem _ hg') hsem R hR

theorem trackSsrcStep_rtxSet (kind : String) (st : TrackState) (a : SsrcEntry) :
    (trackSsrcStep kind st a).rtxSet = st.rtxSet := by
  rw [trackSsrcStep]
  split
  · rfl
  · split <;> rfl

theorem trackSsrcStep_rtxMap (kind : String) (st : TrackState) (a : SsrcEntry) :
    (trackSsrcStep kind st a).rtxMap = st.rtxMap := by
  rw [trackSsrcStep]
  split
  · rfl
  · split <;> rfl

theorem trackSsrcStep_infos_sub (kind : String) (st : TrackState) (a : SsrcEntry) :
    ∀ q ∈ (trackSsrcStep kind st a).infos, q ∈ st.infos ∨ q.1 = a.id := by
  intro q hq
  rw [trackSsrcStep] at hq
  split at hq
  · exact Or.inl hq
  · split at hq
    · rcases mem_mapSet_elim hq with hq | hq
      · exact Or.inl hq
      · right
        rw [hq]
    · rcases mem_mapSet_elim hq with hq | hq
      · exact Or.inl hq
      · right
        rw [hq]

theorem trackSsrcStep_inv (kind : String) (st : TrackState) (a : SsrcEntry)
    (h : TrackInv st) : TrackInv (trackSsrcStep kind st a) := by
  obtain ⟨hA, hB, hC, hD⟩ := h
  by_cases hmem : some a.id ∈ st.rtxSet
  · rw [trackSsrcStep, if_pos hmem]
    exact ⟨hA, hB, hC, hD⟩
  · rw [trackSsrcStep, if_neg hmem]
    split
    · next info hg =>
      have hpair : (a.id, info) ∈ st.infos := mem_of_mapGet_eq_some hg
      refine ⟨?_, ?_, ?_, hD⟩
      · intro q hq
        rcases mem_mapSet_elim hq with hq | hq
        · exact hA q hq
        · rw [hq]
          show (applyAttr info a).ssrc = a.id
          rw [applyAttr_ssrc]
          exact hA _ hpair
      · intro q hq
        rcases mem_mapSet_elim hq with hq | hq
        · exact hB q hq
        · rw [hq]
          exact hmem
      · intro q hq R hR
        rcases mem_mapSet_elim hq with hq | hq
        · exact hC q hq R hR
        · subst hq
          dsimp only at hR
          rw [applyAttr_rtxSsrc] at hR
          exact hC _ hpair R hR
    · next hg =>
      refine ⟨?_, ?_, ?_, hD⟩
      · intro q hq
        rcases mem_mapSet_elim hq with hq | hq
        · exact hA q hq
        · rw [hq]
          show (applyAttr _ a).ssrc = a.id
          rw [applyAttr_ssrc]
      · intro q hq
        rcases mem_mapSet_elim hq with hq | hq
        · exact hB q hq
        · rw [hq]
          exact hmem
      · intro q hq R hR
        rcases mem_mapSet_elim hq with hq | hq
        · exact hC q hq R hR
        · subst hq
          dsimp only at hR
          rw [applyAttr_rtxSsrc] at hR
          have hjoin : (mapGet st.rtxMap a.id).join = some R := hR
          have hsome : mapGet st.rtxMap a.id = some (some R) := by
            cases hmg : mapGet st.rtxMap a.id with
            | none =>
              rw [hmg] at hjoin
              cases hjoin
            | some v =>
              rw [hmg] at hjoin
              cases v with
              | none => simp at hjoin
              | some w =>
                have hw : w = R := by simpa using hjoin
                rw [hw]
          exact hD _ (mem_of_mapGet_eq_some hsome)

theorem trackSsrcFold_inv (kind : String) (as : List SsrcEntry) :
    ∀ st : TrackState, TrackInv st → TrackInv (as.foldl (trackSsrcStep kind) st) := by
  induction as with
  | nil =>
    intro st h
    exact h
  | cons a t ih =>
    intro st h
    rw [List.foldl_cons]
    exact ih _ (trackSsrcStep_inv kind st a h)

theorem trackSsrcFold_rtxSet (kind : String) (as : List SsrcEntry) :
    ∀ st : TrackState, (as.foldl (trackSsrcStep kind) st).rtxSet = st.rtxSet := by
  induction as with
  | nil =>
    intro st
    rfl
  | cons a t ih =>
    intro st
    rw [List.foldl_cons, ih, trackSsrcStep_rtxSet]

theorem trackSsrcFold_infos_sub (kind : String) (as : List SsrcEntry) :
    ∀ st : TrackState, ∀ q ∈ (as.foldl (trackSsrcStep kind) st).infos,
    q ∈ st.infos ∨ ∃ a ∈ as, q.1 = a.id := by
  induction as with
  | nil =>
    intro st q hq
    exact Or.inl hq
  | cons a t ih =>
    intro st q hq
    rw [List.foldl_cons] at hq
    rcases ih _ q hq with hq | ⟨a', ha', hid⟩
    · rcases trackSsrcStep_infos_sub kind st a q hq with hq | hq
      · exact Or.inl hq
      · exact Or.inr ⟨a, List.mem_cons_self _ _, hq⟩
    · exact Or.inr ⟨a', List.mem_cons_of_mem _ ha', hid⟩

/-- Cross-section safety relation between an earlier and a later media
section: no FID group of the later section declares as retransmission
SSRC an id attributed in the earlier section. -/
def noEarlyRtxAttrRel (m m' : MediaSection) : Prop :=
  isAV m = true → isAV m' = true →
  ∀ g ∈ m'.ssrcGroups, g.semantics = "FID" →
  ∀ a ∈ m.ssrcs, some a.id ≠ groupRtxSsrc g

/-- Cross-section safety of a document: ordered pairs of media sections
satisfy `noEarlyRtxAttrRel`. Within a single section this always holds,
because groups are processed before attribute lines. -/
def noEarlyRtxAttr (sdpObject : SdpObject) : Prop :=
  List.Pairwise noEarlyRtxAttrRel sdpObject.media

theorem trackSection_inv (m : MediaSection) (st : TrackState)
    (hInv : TrackInv st)
    (hFutm : isAV m = true → ∀ g ∈ m.ssrcGroups, g.semantics = "FID" →
      ∀ R : Int, groupRtxSsrc g = some R → mapGet st.infos R = none) :
    TrackInv (trackSection st m) := by
  by_cases hm : isAV m
  · rw [trackSection, if_pos hm]
    exact trackSsrcFold_inv _ _ _
      (trackGroupFold_inv _ _ hInv (fun g hg hsem R hR => hFutm hm g hg hsem R hR))
  · rw [trackSection, if_neg hm]
    exact hInv

theorem trackSection_infos_sub (m : MediaSection) (st : TrackState) :
    ∀ q ∈ (trackSection st m).infos, q ∈ st.infos ∨ ∃ a ∈ m.ssrcs, q.1 = a.id := by
  intro q hq
  by_cases hm : isAV m
  · rw [trackSection, if_pos hm] at hq
    rcases trackSsrcFold_infos_sub _ _ _ q hq with hq | h
    · rw [trackGroupFold_infos] at hq
      exact Or.inl hq
    · exact Or.inr h
  · rw [trackSection, if_neg hm] at hq
    exact Or.inl hq

theorem trackSection_rtxSet_mono (m : MediaSection) (st : TrackState) :
    ∀ x ∈ st.rtxSet, x ∈ (trackSection st m).rtxSet := by
  intro x hx
  by_cases hm : isAV m
  · rw [trackSection, if_pos hm, trackSsrcFold_rtxSet]
    exact trackGroupFold_rtxSet_mono _ _ x hx
  · rw [trackSection, if_neg hm]
    exact hx

theorem trackFold_rtxSet_mono (ms : List MediaSection) :
    ∀ st : TrackState, ∀ x ∈ st.rtxSet, x ∈ (ms.foldl trackSection st).rtxSet := by
  induction ms with
  | nil =>
    intro st x hx
    exact hx
  | cons m t ih =>
    intro st x hx
    rw [List.foldl_cons]
    exact ih _ x (trackSection_rtxSet_mono m st x hx)

theorem trackFold_rtxSet_mem (ms : List MediaSection) :
    ∀ st : TrackState, ∀ m ∈ ms, isAV m = true →
    ∀ g ∈ m.ssrcGroups, g.semantics = "FID" →
    groupRtxSsrc g ∈ (ms.foldl trackSection st).rtxSet := by
  induction ms with
  | nil =>
    intro st m hm
    simp at hm
  | cons m0 t ih =>
    intro st m hm hav g hg hsem
    rw [List.foldl_cons]
    rcases List.mem_cons.mp hm with hm | hm
    · subst hm
      refine trackFold_rtxSet_mono t _ _ ?_
      rw [trackSection, if_pos hav, trackSsrcFold_rtxSet]
      exact trackGroupFold_rtxSet_mem _ _ g hg hsem
    · exact ih _ m hm hav g hg hsem

theorem trackFold_inv (ms : List MediaSection) :
    ∀ st : TrackState, TrackInv st →
    (∀ m ∈ ms, isAV m = true → ∀ g ∈ m.ssrcGroups, g.semantics = "FID" →
      ∀ R : Int, groupRtxSsrc g = some R → mapGet st.infos R = none) →
    List.Pairwise noEarlyRtxAttrRel ms →
    TrackInv (ms.foldl trackSection st) := by
  induction ms with
  | nil =>
    intro st h _ _
    exact h
  | cons m t ih =>
    intro st hInv hFut hPW
    rw [List.pairwise_cons] at hPW
    obtain ⟨hrel, hPW'⟩ := hPW
    rw [List.foldl_cons]
    refine ih _ (trackSection_inv m st hInv (fun hm g hg hsem R hR =>
      hFut m (List.mem_cons_self _ _) hm g hg hsem R hR)) ?_ hPW'
    intro m' hm' hav' g hg hsem R hR
    cases hg2 : mapGet (trackSection st m).infos R with
    | none => rfl
    | some i =>
      exfalso
      have hold : ∀ j : TrackInfo, (R, j) ∈ st.infos → False := by
        intro j hj
        have h2 : mapGet st.infos R = none :=
          hFut m' (List.mem_cons_of_mem _ hm') hav' g hg hsem R hR
        have h3 : R ∈ st.infos.map Prod.fst := List.mem_map.mpr ⟨(R, j), hj, rfl⟩
        rw [← mapGet_isSome_iff, h2] at h3
        cases h3
      by_cases hm : isAV m
      · have hpair := mem_of_mapGet_eq_some hg2
        rcases trackSection_infos_sub m st _ hpair with hq | ⟨a, ha, hid⟩
        · exact hold i hq
        · refine hrel m' hm' hm hav' g hg hsem a ha ?_
          rw [hR]
          have hid' : R = a.id := hid
          rw [hid']
      · rw [trackSection, if_neg hm] at hg2
        exact hold i (mem_of_mapGet_eq_some hg2)

/-- Document where the per-source attribute for SSRC 222 appears in a
section *before* the FID group declaring 222 as a retransmission SSRC. -/
def crossSectionDoc : SdpObject :=
  { media :=
    [ { type := "audio", ssrcs := [ { id := 222, «attribute» := "cname", value := "x" } ] }
    , { type := "video"
      , ssrcGroups := [ { semantics := "FID", ssrcs := "111 222" } ]
      , ssrcs := [ { id := 111, «attribute» := "cname", value := "y" } ] } ] }

/-- Track info extracted for SSRC 222 from `crossSectionDoc`. -/
def info222 : TrackInfo :=
  { kind := "audio", rtxSsrc := none, ssrc := 222, cname := some "x" }

/-- Track info extracted for SSRC 111 from `crossSectionDoc`. -/
def info111 : TrackInfo :=
  { kind := "video", rtxSsrc := some 222, ssrc := 111, cname := some "y" }

/-- **C7, counterexample**: the retransmission SSRC 222 surfaces as an
independent TrackInfo (its attribute line is in an earlier section than
the FID group), and the entry for 111 simultaneously carries
`rtxSsrc = 222` — an entry's `ssrc` equals another entry's `rtxSsrc`. -/
theorem track_rtx_cross_section_counterexample :
    extractTrackInfos crossSectionDoc = [(222, info222), (111, info111)] ∧
    info111.rtxSsrc = some info222.ssrc := by
  refine ⟨by decide, rfl⟩

/-- **C7, amended**: for every document in which no FID source group
declares as its retransmission SSRC an id that carries per-source
attributes in an earlier media section (in particular for every
single-section document, regardless of the order of groups and attribute
lines), no TrackInfo's `ssrc` equals any `rtxSsrc` of the result, and
retransmission SSRCs never become independent TrackInfo entries. -/
theorem track_rtx_never_independent (sdp : SdpObject) (h : noEarlyRtxAttr sdp) :
    (∀ q ∈ extractTrackInfos sdp, ∀ q' ∈ extractTrackInfos sdp,
      q'.2.rtxSsrc ≠ some q.2.ssrc) ∧
    (∀ m ∈ sdp.media, isAV m = true → ∀ g ∈ m.ssrcGroups, g.semantics = "FID" →
      ∀ R : Int, groupRtxSsrc g = some R →
      ∀ q ∈ extractTrackInfos sdp, q.1 ≠ R ∧ q.2.ssrc ≠ R) := by
  have hInv : TrackInv (sdp.media.foldl trackSection ⟨[], [], []⟩) := by
    refine trackFold_inv sdp.media _ ?_ ?_ h
    · refine ⟨?_, ?_, ?_, ?_⟩
      · intro q hq
        simp at hq
      · intro q hq
        simp at hq
      · intro q hq
        simp at hq
      · intro s hs
        simp at hs
    · intro m _ _ g _ _ R _
      rfl
  obtain ⟨hA, hB, hC, hD⟩ := hInv
  constructor
  · intro q hq q' hq' heq
    have h1 := hC q' hq' q.2.ssrc heq
    rw [hA q hq] at h1
    exact hB q hq h1
  · intro m hm hav g hg hsem R hR q hq
    have hset : some R ∈ (sdp.media.foldl trackSection ⟨[], [], []⟩).rtxSet := by
      have hx := trackFold_rtxSet_mem sdp.media ⟨[], [], []⟩ m hm hav g hg hsem
      rw [hR] at hx
      exact hx
    have h2 := hB q hq
    constructor
    · intro hqR
      rw [hqR] at h2
      exact h2 hset
    · intro hqR
      rw [hA q hq] at hqR
      rw [hqR] at h2
      exact h2 hset

/-- The specification's FID scenario: ssrc 111 with msid, FID group
`111 222`. -/
def fidDoc : SdpObject :=
  { media := [ { type := "video"
               , ssrcGroups := [ { semantics := "FID", ssrcs := "111 222" } ]
               , ssrcs := [ { id := 111, «attribute» := "msid", value := "stream1 track1" } ] } ] }

/-- Witness for C7's amended theorem at the specification's FID scenario:
SSRC 111 gets `rtxSsrc 222`, stream and track ids from `msid`, and no
entry exists for 222. -/
theorem track_rtx_never_independent_witness :
    extractTrackInfos fidDoc
      = [(111, { kind := "video", rtxSsrc := some 222, ssrc := 111
               , streamId := some "stream1", trackId := some "track1" })] ∧
    (∀ q ∈ extractTrackInfos fidDoc, ∀ q' ∈ extractTrackInfos fidDoc,
      q'.2.rtxSsrc ≠ some q.2.ssrc) := by
  refine ⟨by decide, (track_rtx_never_independent fidDoc ?_).1⟩
  rw [noEarlyRtxAttr]
  exact List.pairwise_singleton _ _

end Ortc
